import Mathlib

set_option maxRecDepth 100000

/-!
# Device Trust Shim — verification of the audit-chain core

Shallow embedding of the tamper-evident logging core of the
`device_trust_shim` repository (`include/dts/audit_chain.hpp`):

* the from-scratch SHA-256 digest engine (`SHA256::update`,
  `SHA256::finalize`, `SHA256::transform`),
* the chain engine (`AuditChain::log`, `AuditChain::verify_chain`) with
  its helpers `hash_to_hex`, `hex_to_hash` (via `std::stoi`),
  `extract_hex` and `escape_json`.

Byte strings are `List Nat` (each element a byte value); 32-bit machine
words are `Nat` reduced with `% 2^32` exactly where the C++ stores into a
`uint32_t`.  Code that can throw (`std::stoi`, `std::string::substr`) is
modelled in `Except Unit`, an `Except.error` standing for an escaped C++
exception.
-/

namespace DTS

/-- Reduction into a `uint32_t`, i.e. the implicit conversion applied by
every store into the 32-bit state of the C++ `SHA256` class. -/
def mask32 (x : Nat) : Nat := x % 4294967296

/-- `SHA256::right_rotate`: `(value >> amount) | (value << (32 - amount))`
on `uint32_t`. -/
def rotr32 (v n : Nat) : Nat := mask32 (Nat.lor (v >>> n) (v <<< (32 - n)))

/-- The 64 SHA-256 round constants `SHA256::k`, transcribed row by row
from the initializer at lines 82-99 of the header (one sublist per
source row of four constants). -/
def kTable : List Nat :=
  [0x428a2f98, 0x71374491, 0xb5c0fbcf, 0xe9b5dba5]
    ++ [0x3956c25c, 0x59f111f1, 0x923f82e4, 0xab1c5ed5]
    ++ [0xd807aa98, 0x12835b01, 0x243185be, 0x550c7dc3]
    ++ [0x72be5d8d, 0x80deb1fe, 0x9bdc06a7, 0xc19bf174]
    ++ [0xe49b69c1, 0xefbe4786, 0x0fc19dc6, 0x240ca1cc]
    ++ [0x2de92c6f, 0x4a7484aa, 0x5cb0a9dc, 0x76f988da]
    ++ [0x983e5152, 0xa831c66b, 0xb00327c8, 0xbf597fc7]
    ++ [0xc6e00bf3, 0xd5a79147, 0x06ca6351, 0x14292967]
    ++ [0x27b70a85, 0x2e1b2138, 0x4d2c6dfc, 0x53380d13]
    ++ [0x650a7354, 0x766a0abb, 0x81c2c92e, 0x92722c85]
    ++ [0xa2bfe8a1, 0xa81a664b, 0xc24b8b70, 0xc76c51a3]
    ++ [0xd192e819, 0xd6990624, 0xf40e3585, 0x106aa070]
    ++ [0x19a4c116, 0x1e376c08, 0x2748774c, 0x34b0bcb5]
    ++ [0x391c0cb3, 0x4ed8aa4a, 0x5b9cca4f, 0x682e6ff3]
    ++ [0x748f82ee, 0x78a5636f, 0x84c87814, 0x8cc70208]
    ++ [0x90befffa, 0xa4506ceb, 0xbef9a3f7, 0xc67178f2]

/-- The initial hash state `SHA256::h`. -/
def hInit : List Nat :=
  [0x6a09e667, 0xbb67ae85, 0x3c6ef372, 0xa54ff53a,
   0x510e527f, 0x9b05688c, 0x1f83d9ab, 0x5be0cd19]

/-- Bitwise complement of a `uint32_t` value (`~e` in the C++ `ch` term). -/
def compl32 (x : Nat) : Nat := Nat.xor x 4294967295

/-- The `s0` term of the message-schedule expansion. -/
def sigma0 (x : Nat) : Nat :=
  Nat.xor (rotr32 x 7) (Nat.xor (rotr32 x 18) (x >>> 3))

/-- The `s1` term of the message-schedule expansion. -/
def sigma1 (x : Nat) : Nat :=
  Nat.xor (rotr32 x 17) (Nat.xor (rotr32 x 19) (x >>> 10))

/-- The `S0` term of the round function. -/
def bigSigma0 (a : Nat) : Nat :=
  Nat.xor (rotr32 a 2) (Nat.xor (rotr32 a 13) (rotr32 a 22))

/-- The `S1` term of the round function. -/
def bigSigma1 (e : Nat) : Nat :=
  Nat.xor (rotr32 e 6) (Nat.xor (rotr32 e 11) (rotr32 e 25))

/-- The `ch` term `(e & f) ^ (~e & g)`. -/
def chF (e f g : Nat) : Nat :=
  Nat.xor (Nat.land e f) (Nat.land (compl32 e) g)

/-- The `maj` term `(a & b) ^ (a & c) ^ (b & c)`. -/
def majF (a b c : Nat) : Nat :=
  Nat.xor (Nat.xor (Nat.land a b) (Nat.land a c)) (Nat.land b c)

/-- Big-endian packing of the 64-byte block into the first 16 schedule
words (`w[i] = buffer[4i] << 24 | ... | buffer[4i+3]`). -/
def toWords : List Nat → List Nat
  | b0 :: b1 :: b2 :: b3 :: rest =>
      mask32 (Nat.lor (b0 <<< 24) (Nat.lor (b1 <<< 16) (Nat.lor (b2 <<< 8) b3)))
        :: toWords rest
  | _ => []

/-- Message-schedule expansion, iterated `n` more words.  The accumulator
holds the schedule so far in reverse, so from the head: index 1 is
`w[i-2]`, 6 is `w[i-7]`, 14 is `w[i-15]`, 15 is `w[i-16]`. -/
def schedExt : Nat → List Nat → List Nat
  | 0, acc => acc.reverse
  | n + 1, acc =>
      let v := mask32 (acc.getD 15 0 + sigma0 (acc.getD 14 0)
                        + acc.getD 6 0 + sigma1 (acc.getD 1 0))
      schedExt n (v :: acc)

/-- The eight working registers `a..h` of `SHA256::transform`. -/
structure Regs where
  ra : Nat
  rb : Nat
  rc : Nat
  rd : Nat
  re : Nat
  rf : Nat
  rg : Nat
  rh : Nat
deriving Repr, DecidableEq

/-- One round of the 64-round compression loop; `kw` carries
`(k[i], w[i])`. -/
def roundStep (r : Regs) (kw : Nat × Nat) : Regs :=
  let t1 := mask32 (r.rh + bigSigma1 r.re + chF r.re r.rf r.rg + kw.1 + kw.2)
  let t2 := mask32 (bigSigma0 r.ra + majF r.ra r.rb r.rc)
  ⟨mask32 (t1 + t2), r.ra, r.rb, r.rc, mask32 (r.rd + t1), r.re, r.rf, r.rg⟩

/-- `SHA256::transform`: compress one 64-byte block into the hash state.
Always returns an 8-word state. -/
def transform (hs : List Nat) (block : List Nat) : List Nat :=
  let w := schedExt 48 (toWords block).reverse
  let r0 : Regs := ⟨hs.getD 0 0, hs.getD 1 0, hs.getD 2 0, hs.getD 3 0,
                    hs.getD 4 0, hs.getD 5 0, hs.getD 6 0, hs.getD 7 0⟩
  let r := (kTable.zip w).foldl roundStep r0
  [mask32 (hs.getD 0 0 + r.ra), mask32 (hs.getD 1 0 + r.rb),
   mask32 (hs.getD 2 0 + r.rc), mask32 (hs.getD 3 0 + r.rd),
   mask32 (hs.getD 4 0 + r.re), mask32 (hs.getD 5 0 + r.rf),
   mask32 (hs.getD 6 0 + r.rg), mask32 (hs.getD 7 0 + r.rh)]

/-- One byte of `SHA256::update`: append to the 64-byte buffer, compress
when it fills. -/
def byteStep (s : List Nat × List Nat) (b : Nat) : List Nat × List Nat :=
  let buf := s.2 ++ [b]
  if buf.length = 64 then (transform s.1 buf, []) else (s.1, buf)

/-- The mutable state of a C++ `SHA256` object: hash words `h`, pending
`buffer` bytes, and the `bit_len` counter (a `uint64_t`). -/
structure SHACtx where
  hs : List Nat
  buf : List Nat
  bitLen : Nat
deriving Repr, DecidableEq

/-- A freshly constructed `SHA256` context. -/
def initCtx : SHACtx := ⟨hInit, [], 0⟩

/-- `SHA256::update(data, len)`: feed bytes through the buffer, then
advance `bit_len` by `len * 8` (wrapping as a `uint64_t`). -/
def updateCtx (c : SHACtx) (data : List Nat) : SHACtx :=
  let p := data.foldl byteStep (c.hs, c.buf)
  ⟨p.1, p.2, (c.bitLen + data.length * 8) % 18446744073709551616⟩

/-- The static 64-byte padding array `{0x80, 0, ..., 0}`. -/
def padSrc : List Nat := 128 :: List.replicate 63 0

/-- The 8 big-endian bytes of the bit length appended by
`SHA256::finalize` (the effect of `swap_endian` plus the byte copy on the
little-endian targets the code is written for). -/
def lenBytes (bl : Nat) : List Nat :=
  [(bl >>> 56) % 256, (bl >>> 48) % 256, (bl >>> 40) % 256, (bl >>> 32) % 256,
   (bl >>> 24) % 256, (bl >>> 16) % 256, (bl >>> 8) % 256, bl % 256]

/-- Big-endian serialization of the final state words
(`result[i*4+j] = (h[i] >> shift) & 0xFF`). -/
def bytesOfWords (ws : List Nat) : List Nat :=
  (ws.map (fun w =>
    [(w >>> 24) % 256, (w >>> 16) % 256, (w >>> 8) % 256, w % 256])).flatten

/-- `SHA256::finalize`: pad to 56 mod 64 bytes, append the saved bit
length, and emit the 32 digest bytes. -/
def finalizeCtx (c : SHACtx) : List Nat :=
  let padLen := if c.buf.length < 56 then 56 - c.buf.length else 120 - c.buf.length
  let c1 := updateCtx c (padSrc.take padLen)
  let c2 := updateCtx c1 (lenBytes c.bitLen)
  bytesOfWords c2.hs

/-- The one-shot `SHA256::hash`: construct, update once, finalize. -/
def sha256Bytes (d : List Nat) : List Nat := finalizeCtx (updateCtx initCtx d)

/-- Byte values of an ASCII string literal, as the C++ code sees a
`std::string`'s bytes. -/
def asciiB (s : String) : List Nat := s.data.map Char.toNat

/-! ## Chain engine: serialization helpers -/

/-- One lowercase hexadecimal digit character, as emitted by
`std::hex` with lowercase formatting. -/
def hexDigitCh (n : Nat) : Nat := if n < 10 then 48 + n else 87 + n

/-- The two characters `std::setw(2) << std::setfill('0') << std::hex`
prints for one digest byte in `AuditChain::hash_to_hex`. -/
def hexByte (b : Nat) : List Nat := [hexDigitCh (b / 16), hexDigitCh (b % 16)]

/-- `AuditChain::hash_to_hex`: 64 lowercase hex characters for the 32
digest bytes. -/
def hashToHex (h : List Nat) : List Nat := (h.map hexByte).flatten

/-- Decimal digit characters of a nonnegative integer, as printed by
`operator<<(std::ostream, int)` for the casted enum codes. -/
def decDigitsAux : Nat → Nat → List Nat
  | 0, _ => []
  | fuel + 1, n =>
      if n < 10 then [48 + n]
      else decDigitsAux fuel (n / 10) ++ [48 + n % 10]

/-- Decimal rendering of a nonnegative integer. -/
def decDigits (n : Nat) : List Nat := decDigitsAux (n + 1) n

/-- The per-character translation of `AuditChain::escape_json`: quote and
backslash get a backslash escape, the five named control characters get
their short escapes, the remaining control bytes become a
`\uXXXX` sequence, everything else passes through. -/
def escUnit (c : Nat) : List Nat :=
  if c = 34 then [92, 34]
  else if c = 92 then [92, 92]
  else if c = 8 then [92, 98]
  else if c = 12 then [92, 102]
  else if c = 10 then [92, 110]
  else if c = 13 then [92, 114]
  else if c = 9 then [92, 116]
  else if c < 32 then [92, 117, 48, 48, hexDigitCh (c / 16), hexDigitCh (c % 16)]
  else [c]

/-- `AuditChain::escape_json` over the whole message. -/
def escapeJson (msg : List Nat) : List Nat := (msg.map escUnit).flatten

/-- Hexadecimal digit character test (either case), used by the string
lexer below. -/
def isHexDigitEsc (c : Nat) : Bool :=
  (48 ≤ c && c ≤ 57) || (97 ≤ c && c ≤ 102) || (65 ≤ c && c ≤ 70)

/-- Scanner for the body of a JSON string literal, one character at a
time: state 0 is ordinary text, state 1 follows a backslash, and state
`n + 2` expects `n + 1` more hexadecimal digits of a `\uXXXX` sequence.
Acceptance means: no raw control character, quote, or backslash, and
every backslash starts a short escape (`\"`, `\\`, `\b`, `\f`, `\n`,
`\r`, `\t`) or a `\uXXXX` sequence with four hexadecimal digits. -/
def jsonScan : Nat → List Nat → Bool
  | 0, [] => true
  | _ + 1, [] => false
  | 0, c :: r =>
      if c = 92 then jsonScan 1 r
      else (decide (32 ≤ c) && !(c == 34)) && jsonScan 0 r
  | 1, e :: r =>
      if e = 117 then jsonScan 5 r
      else
        (e == 34 || e == 92 || e == 98 || e == 102 || e == 110
          || e == 114 || e == 116) && jsonScan 0 r
  | n + 2, d :: r =>
      isHexDigitEsc d && jsonScan (match n with | 0 => 0 | m + 1 => m + 2) r

/-- `jsonLexOK body = true` means `"body"` parses as a valid embedded
string literal. -/
def jsonLexOK (l : List Nat) : Bool := jsonScan 0 l

/-! ## Chain engine: the JSON entry produced by `AuditChain::log`

The serialized entry is the concatenation written by the `log_entry`
stream, split here at its literal segments. -/

/-- Literal text up to the device id value. -/
def lit1 : List Nat := [123, 34, 100, 101, 118, 105, 99, 101, 95, 105, 100, 34, 58, 34]

/-- Literal text between the device id and the timestamp values. -/
def lit2 : List Nat := [34, 44, 34, 116, 105, 109, 101, 115, 116, 97, 109, 112, 34, 58, 34]

/-- Literal text between the timestamp and the user id values. -/
def lit3a : List Nat := [34, 44, 34, 117, 115, 101, 114, 95, 105, 100, 34, 58]

/-- Literal text between the user id and the severity values. -/
def lit3b : List Nat := [44, 34, 115, 101, 118, 101, 114, 105, 116, 121, 34, 58]

/-- Literal text between the severity and the message values. -/
def lit3c : List Nat := [44, 34, 109, 101, 115, 115, 97, 103, 101, 34, 58, 34]

/-- The tail of the previous-hash key, after its opening quote. -/
def keyP : List Nat := [112, 114, 101, 118, 105, 111, 117, 115, 95, 104, 97, 115, 104, 34, 58, 34]

/-- The key text `AuditChain::verify_chain` searches for before the
previous-hash value (17 characters). -/
def needleP : List Nat := 34 :: keyP

/-- The tail of the chain-hash key, after its opening quote. -/
def keyC : List Nat := [99, 104, 97, 105, 110, 95, 104, 97, 115, 104, 34, 58, 34]

/-- The key text `AuditChain::verify_chain` searches for before the
chain-hash value (14 characters). -/
def needleC : List Nat := 34 :: keyC

/-- The closing quote of the message value plus the separating comma;
together with `needleP` this is the literal between the message and the
previous-hash values. -/
def qComma : List Nat := [34, 44]

/-- The literal closing the entry after the chain-hash value. -/
def litEnd : List Nat := [34, 125]

/-- The field separator of the hashing payload. -/
def sepB : List Nat := [124]

/-- The hashing payload built by `AuditChain::log`:
`device_id | timestamp | user_id | severity | message | hex(previous_hash)`.
The message enters raw, unescaped. -/
def payloadB (dev ts msg : List Nat) (u s : Nat) (prev : List Nat) : List Nat :=
  dev ++ sepB ++ ts ++ sepB ++ decDigits u ++ sepB ++ decDigits s ++ sepB
    ++ msg ++ sepB ++ hashToHex prev

/-- The shape of a serialized entry with arbitrary text in the two
digest-value slots (`PH` and `CH`): all literal segments, the raw device
id and timestamp, the decimal codes, and the escaped message.  Tampered
entries differ from honest ones only in these two slots. -/
def entryRaw (dev ts msg : List Nat) (u s : Nat) (PH CH : List Nat) : List Nat :=
  lit1 ++ dev ++ lit2 ++ ts ++ lit3a ++ decDigits u ++ lit3b ++ decDigits s
    ++ lit3c ++ escapeJson msg ++ qComma ++ needleP ++ PH
    ++ qComma ++ needleC ++ CH ++ litEnd

/-- The serialized JSON entry written by the `log_entry` stream of
`AuditChain::log`: an `entryRaw` whose digest slots hold the hex
renderings of the previous and current chain hashes. -/
def entryOf (dev ts msg : List Nat) (u s : Nat) (prev cur : List Nat) : List Nat :=
  entryRaw dev ts msg u s (hashToHex prev) (hashToHex cur)

/-- The body of `AuditChain::log`, with the wall-clock timestamp lifted
to a parameter: returns the serialized JSON entry and the new chain
hash.  The serialized entry embeds the escaped message; the digest is
computed over the raw message. -/
def logEntryB (dev ts msg : List Nat) (u s : Nat) (prev : List Nat) :
    List Nat × List Nat :=
  let cur := sha256Bytes (payloadB dev ts msg u s prev)
  (entryOf dev ts msg u s prev cur, cur)

/-- The mutable state of an `AuditChain` instance: `device_id_`,
`previous_hash_`, `sequence_number_`. -/
structure ChainSt where
  deviceId : List Nat
  prevHash : List Nat
  seq : Nat
deriving Repr, DecidableEq

/-- The `AuditChain` constructor: seed the rolling digest with the hash
of `"DTS_INIT"`, sequence number 0. -/
def mkChain (dev : List Nat) : ChainSt :=
  ⟨dev, sha256Bytes (asciiB "DTS_INIT"), 0⟩

/-- One `log` call: the input data of a single append. -/
structure LogInput where
  ts : List Nat
  msg : List Nat
  uid : Nat
  sev : Nat
deriving Repr, DecidableEq

/-- `AuditChain::log` as a state transformer: emit the entry, set the
rolling digest to the new chain hash, advance the sequence number. -/
def logOp (st : ChainSt) (inp : LogInput) : ChainSt × List Nat :=
  let r := logEntryB st.deviceId inp.ts inp.msg inp.uid inp.sev st.prevHash
  (⟨st.deviceId, r.2, st.seq + 1⟩, r.1)

/-- A whole session: run the appends in order, collecting the serialized
entries. -/
def chainRun (st : ChainSt) : List LogInput → ChainSt × List (List Nat)
  | [] => (st, [])
  | inp :: rest =>
      let r := logOp st inp
      let t := chainRun r.1 rest
      (t.1, r.2 :: t.2)

/-! ## Chain engine: verification -/

/-- Byte-string prefix test, used to model `std::string::find`. -/
def startsW : List Nat → List Nat → Bool
  | [], _ => true
  | _ :: _, [] => false
  | a :: as, b :: bs => a == b && startsW as bs

/-- `std::string::find(needle, 0)`: index of the first occurrence, or
`none` for `npos`. -/
def strfind (needle : List Nat) : List Nat → Option Nat
  | [] => if startsW needle [] then some 0 else none
  | c :: t =>
      if startsW needle (c :: t) then some 0
      else (strfind needle t).map (· + 1)

/-- `AuditChain::extract_hex`: the characters from `start` up to the
next quote, or the empty string if no quote follows. -/
def extractHex (json : List Nat) (start : Nat) : List Nat :=
  match strfind [34] (json.drop start) with
  | none => []
  | some e => (json.drop start).take e

/-- The C locale whitespace set skipped by `std::stoi`. -/
def isSpaceCh (c : Nat) : Bool :=
  c = 32 || c = 9 || c = 10 || c = 11 || c = 12 || c = 13

/-- Hexadecimal digit test of `strtol` with base 16. -/
def isHexDigitCh (c : Nat) : Bool :=
  (48 ≤ c && c ≤ 57) || (97 ≤ c && c ≤ 102) || (65 ≤ c && c ≤ 70)

/-- Value of one hexadecimal digit character. -/
def hexVal (c : Nat) : Nat :=
  if c ≤ 57 then c - 48 else if c ≤ 70 then c - 55 else c - 87

/-- Greedy hexadecimal digit parse of `strtol`. -/
def hexDigitsVal : List Nat → Nat → Nat × Nat
  | [], acc => (acc, 0)
  | c :: t, acc =>
      if isHexDigitCh c then
        let r := hexDigitsVal t (acc * 16 + hexVal c)
        (r.1, r.2 + 1)
  else (acc, 0)

/-- `std::stoi(s, nullptr, 16)`: skip C-locale whitespace, an optional
sign, an optional `0x`/`0X` prefix, then greedy hex digits; throws
`std::invalid_argument` (here `Except.error`) when no digit is consumed,
`std::out_of_range` when the value exceeds `int`. -/
def stoi16 (s : List Nat) : Except Unit Int :=
  let s1 := s.dropWhile isSpaceCh
  let sign : Int × List Nat :=
    match s1 with
    | 43 :: t => (1, t)
    | 45 :: t => (-1, t)
    | t => (1, t)
  let body :=
    match sign.2 with
    | 48 :: 120 :: t => if (t.headD 0) |> isHexDigitCh then t else sign.2
    | 48 :: 88 :: t => if (t.headD 0) |> isHexDigitCh then t else sign.2
    | t => t
  let r := hexDigitsVal body 0
  if r.2 = 0 then Except.error ()
  else if (2147483647 : Nat) < r.1 then Except.error ()
  else Except.ok (sign.1 * (r.1 : Int))

/-- `hex.substr(pos, 2)` as used by `hex_to_hash`: throws
`std::out_of_range` when `pos` exceeds the length. -/
def substr2 (s : List Nat) (pos : Nat) : Except Unit (List Nat) :=
  if s.length < pos then Except.error ()
  else Except.ok ((s.drop pos).take 2)

/-- One byte of `AuditChain::hex_to_hash`:
`static_cast<uint8_t>(std::stoi(hex.substr(i*2, 2), nullptr, 16))`. -/
def stoiByte (s : List Nat) (pos : Nat) : Except Unit Nat := do
  let g ← substr2 s pos
  let v ← stoi16 g
  return (v % 256).toNat

/-- The 32-iteration loop of `AuditChain::hex_to_hash`, reading 2-char
groups at positions `2*i`. -/
def hexToHashAux (s : List Nat) : Nat → Nat → Except Unit (List Nat)
  | 0, _ => Except.ok []
  | n + 1, i => do
      let b ← stoiByte s (2 * i)
      let rest ← hexToHashAux s n (i + 1)
      return b :: rest

/-- `AuditChain::hex_to_hash`: parse 32 bytes from the hex text; an
escaped `std::stoi` / `substr` exception is `Except.error`. -/
def hexToHash (s : List Nat) : Except Unit (List Nat) := hexToHashAux s 32 0

/-- The loop body of `AuditChain::verify_chain` over the remaining
entries, carrying `expected_prev`. -/
def verifyLoop (expected : List Nat) : List (List Nat) → Except Unit Bool
  | [] => Except.ok true
  | e :: rest =>
      match strfind needleP e, strfind needleC e with
      | some p, some c =>
          if extractHex e (p + 17) ≠ hashToHex expected then Except.ok false
          else do
            let h' ← hexToHash (extractHex e (c + 14))
            verifyLoop h' rest
      | _, _ => Except.ok false

/-- `AuditChain::verify_chain`: `Except.ok` is the returned boolean,
`Except.error` an exception escaping from `std::stoi`/`substr`. -/
def verifyChain (entries : List (List Nat)) : Except Unit Bool :=
  if entries.isEmpty then Except.ok true
  else verifyLoop (sha256Bytes (asciiB "DTS_INIT")) entries

/-! ## Derived notions used by the statements -/

/-- Equality on modelled C++ outcomes (`Except` of a value or an escaped
exception) is decidable, so concrete runs can be checked by evaluation. -/
instance {ε α : Type} [DecidableEq ε] [DecidableEq α] : DecidableEq (Except ε α)
  | Except.ok a, Except.ok b => decidable_of_iff (a = b) (by simp)
  | Except.ok _, Except.error _ => isFalse fun h => Except.noConfusion h
  | Except.error _, Except.ok _ => isFalse fun h => Except.noConfusion h
  | Except.error e, Except.error f => decidable_of_iff (e = f) (by simp)

/-- Well-formedness of a digest value: 32 bytes. -/
def isHash (l : List Nat) : Prop := l.length = 32 ∧ ∀ b ∈ l, b < 256

instance : DecidablePred isHash := fun l => by
  unfold isHash; infer_instance

/-- The digests of the successive entries of a session, in order. -/
def runDigests (st : ChainSt) : List LogInput → List (List Nat)
  | [] => []
  | inp :: rest =>
      let r := logOp st inp
      r.1.prevHash :: runDigests r.1 rest

/-- The published SHA-256 digest of the empty input, as quoted by the
specification (`e3b0...b855`). -/
def specEmptyDigest : List Nat :=
  [0xe3, 0xb0, 0xc4, 0x42, 0x98, 0xfc, 0x1c, 0x14,
   0x9a, 0xfb, 0xf4, 0xc8, 0x99, 0x6f, 0xb9, 0x24,
   0x27, 0xae, 0x41, 0xe4, 0x64, 0x9b, 0x93, 0x4c,
   0xa4, 0x95, 0x99, 0x1b, 0x78, 0x52, 0xb8, 0x55]

/-- The published SHA-256 digest of `"abc"`
(`ba7816bf...f20015ad`, FIPS 180-2 appendix B.1). -/
def specAbcDigest : List Nat :=
  [0xba, 0x78, 0x16, 0xbf, 0x8f, 0x01, 0xcf, 0xea,
   0x41, 0x41, 0x40, 0xde, 0x5d, 0xae, 0x22, 0x23,
   0xb0, 0x03, 0x61, 0xa3, 0x96, 0x17, 0x7a, 0x9c,
   0xb4, 0x10, 0xff, 0x61, 0xf2, 0x00, 0x15, 0xad]

/-- Lowercase hexadecimal digit character test (the alphabet of
`hash_to_hex` output). -/
def isHexLowerCh (c : Nat) : Bool :=
  (48 ≤ c && c ≤ 57) || (97 ≤ c && c ≤ 102)

/-- Decimal digit character test. -/
def isDigitCh (c : Nat) : Bool := 48 ≤ c && c ≤ 57

/-! ## Theorems -/

/-! ### Digest engine structure -/

theorem updateCtx_append (c : SHACtx) (a b : List Nat) :
    updateCtx (updateCtx c a) b = updateCtx c (a ++ b) := by
  unfold updateCtx
  simp only [List.foldl_append, List.length_append]
  congr 1
  omega

theorem foldl_updateCtx_flatten (chunks : List (List Nat)) :
    ∀ (c : SHACtx) (d : List Nat),
      chunks.foldl updateCtx (updateCtx c d) = updateCtx c (d ++ chunks.flatten) := by
  induction chunks with
  | nil => intro c d; simp
  | cons ch rest ih =>
      intro c d
      simp only [List.foldl_cons, List.flatten_cons]
      rw [updateCtx_append, ih, List.append_assoc]

theorem updateCtx_nil_initCtx : updateCtx initCtx [] = initCtx := rfl

/-- C7. Streaming/one-shot equivalence: a fresh context updated with `A`
then `B` and finalized gives the digest of `A ++ B`, and more generally
any partition of the input into update calls finalizes to the one-shot
digest of the concatenation. -/
theorem claimC7_streaming :
    (∀ A B : List Nat,
      finalizeCtx (updateCtx (updateCtx initCtx A) B) = sha256Bytes (A ++ B)) ∧
    (∀ chunks : List (List Nat),
      finalizeCtx (chunks.foldl updateCtx initCtx) = sha256Bytes chunks.flatten) := by
  constructor
  · intro A B
    rw [updateCtx_append]; rfl
  · intro chunks
    rw [← updateCtx_nil_initCtx, foldl_updateCtx_flatten]
    rfl

/-! ### Chain state invariants -/

theorem chainRun_seq (inputs : List LogInput) :
    ∀ st : ChainSt, (chainRun st inputs).1.seq = st.seq + inputs.length := by
  induction inputs with
  | nil => intro st; simp [chainRun]
  | cons inp rest ih =>
      intro st
      simp only [chainRun, ih, logOp, List.length_cons]
      omega

theorem chainRun_deviceId (inputs : List LogInput) :
    ∀ st : ChainSt, (chainRun st inputs).1.deviceId = st.deviceId := by
  induction inputs with
  | nil => intro st; simp [chainRun]
  | cons inp rest ih => intro st; simp only [chainRun, ih, logOp]

theorem chainRun_rolling (inputs : List LogInput) :
    ∀ st : ChainSt,
      (chainRun st inputs).1.prevHash = (runDigests st inputs).getLastD st.prevHash := by
  induction inputs with
  | nil => intro st; simp [chainRun, runDigests]
  | cons inp rest ih =>
      intro st
      simp only [chainRun, runDigests, ih, List.getLastD_cons]

/-- C6. A fresh `AuditChain` carries the genesis digest
`hash("DTS_INIT")` and sequence number 0; after any sequence of appends
the sequence number equals the number of appends (so after append `i` it
is exactly `i`, strictly increasing), and the rolling digest equals the
digest of the last entry appended (the genesis digest when none was). -/
theorem claimC6_state_invariants (dev : List Nat) (inputs : List LogInput) :
    (mkChain dev).seq = 0 ∧
    (mkChain dev).prevHash = sha256Bytes (asciiB "DTS_INIT") ∧
    (chainRun (mkChain dev) inputs).1.seq = inputs.length ∧
    (∀ i : Nat, (chainRun (mkChain dev) (inputs.take i)).1.seq = min i inputs.length) ∧
    (chainRun (mkChain dev) inputs).1.prevHash =
      (runDigests (mkChain dev) inputs).getLastD (sha256Bytes (asciiB "DTS_INIT")) := by
  refine ⟨rfl, rfl, ?_, ?_, ?_⟩
  · rw [chainRun_seq]; simp [mkChain]
  · intro i
    rw [chainRun_seq, List.length_take]; simp [mkChain]
  · rw [chainRun_rolling]; rfl

/-! ### The digest engine against the published test vectors -/

/-- C3. The digest engine is total and deterministic, but it does not
reproduce the published SHA-256 test vectors: its round-constant table
diverges from the standard in four entries (`k[4]`, `k[6]`, `k[12]`,
`k[25]`), so the digest of the empty input is
`8c7e31eb...479bde9d`, not the published
`e3b0c442...7852b855`, and the digest of `"abc"` also differs from the
published vector. -/
theorem claimC3_digest_mismatch :
    sha256Bytes [] =
      [0x8c, 0x7e, 0x31, 0xeb, 0xdb, 0x68, 0x0b, 0x41,
       0xd7, 0xc1, 0x4d, 0xfc, 0x38, 0x6a, 0xc8, 0xa1,
       0xb1, 0xca, 0x79, 0x32, 0xb8, 0xff, 0x2c, 0xa7,
       0x97, 0x8e, 0x65, 0x72, 0x47, 0x9b, 0xde, 0x9d] ∧
    sha256Bytes [] ≠ specEmptyDigest ∧
    sha256Bytes (asciiB "abc") ≠ specAbcDigest ∧
    kTable.get? 4 = some 0x3956c25c ∧ kTable.get? 4 ≠ some 0x3956c25b := by
  refine ⟨by decide, by decide, by decide, by decide, by decide⟩

/-! ### Hash state shape -/

theorem transform_length (hs block : List Nat) : (transform hs block).length = 8 := by
  simp [transform]

theorem foldl_byteStep_length (data : List Nat) :
    ∀ s : List Nat × List Nat, s.1.length = 8 →
      (List.foldl byteStep s data).1.length = 8 := by
  induction data with
  | nil => intro s h; simpa
  | cons b rest ih =>
      intro s h
      simp only [List.foldl_cons]
      apply ih
      simp only [byteStep]
      split
      · exact transform_length _ _
      · exact h

theorem updateCtx_hs_length (c : SHACtx) (d : List Nat) (h : c.hs.length = 8) :
    (updateCtx c d).hs.length = 8 :=
  foldl_byteStep_length d (c.hs, c.buf) h

theorem bytesOfWords_length (ws : List Nat) :
    (bytesOfWords ws).length = 4 * ws.length := by
  induction ws with
  | nil => rfl
  | cons w rest ih => simp [bytesOfWords] at ih ⊢; omega

theorem bytesOfWords_lt (ws : List Nat) :
    ∀ b ∈ bytesOfWords ws, b < 256 := by
  induction ws with
  | nil => intro b hb; simp [bytesOfWords] at hb
  | cons w rest ih =>
      intro b hb
      simp only [bytesOfWords, List.map_cons, List.flatten_cons, List.mem_append,
        List.mem_cons, List.mem_singleton, List.not_mem_nil, or_false] at hb
      rcases hb with hb | hb
      · rcases hb with h | h | h | h <;> omega
      · exact ih b hb

theorem sha256_isHash (d : List Nat) : isHash (sha256Bytes d) := by
  unfold sha256Bytes finalizeCtx
  constructor
  · rw [bytesOfWords_length]
    have h1 : (updateCtx initCtx d).hs.length = 8 := updateCtx_hs_length _ _ rfl
    rw [updateCtx_hs_length _ _ (updateCtx_hs_length _ _ h1)]
  · intro b hb
    exact bytesOfWords_lt _ b hb

/-! ### Hex rendering and parsing -/

theorem hexDigit_isHexLower : ∀ n, n < 16 → isHexLowerCh (hexDigitCh n) = true := by
  decide

theorem hexByte_isHexLower : ∀ b, b < 256 → ∀ c ∈ hexByte b, isHexLowerCh c = true := by
  intro b hb c hc
  simp only [hexByte, List.mem_cons, List.mem_singleton] at hc
  rcases hc with rfl | rfl | h
  · exact hexDigit_isHexLower _ (by omega)
  · exact hexDigit_isHexLower _ (by omega)
  · simp at h

theorem isHexLower_facts (c : Nat) (h : isHexLowerCh c = true) :
    c ≠ 34 ∧ c ≠ 92 ∧ c ≠ 104 ∧ c ≠ 123 ∧ 32 ≤ c := by
  simp only [isHexLowerCh, Bool.or_eq_true, Bool.and_eq_true, decide_eq_true_eq] at h
  omega

theorem hashToHex_chars (H : List Nat) (hH : ∀ b ∈ H, b < 256) :
    ∀ c ∈ hashToHex H, isHexLowerCh c = true := by
  induction H with
  | nil => intro c hc; simp [hashToHex] at hc
  | cons b rest ih =>
      intro c hc
      simp only [hashToHex, List.map_cons, List.flatten_cons, List.mem_append] at hc
      rcases hc with hc | hc
      · exact hexByte_isHexLower b (hH b (by simp)) c hc
      · exact ih (fun x hx => hH x (by simp [hx])) c hc

theorem hashToHex_length (H : List Nat) : (hashToHex H).length = 2 * H.length := by
  induction H with
  | nil => rfl
  | cons b rest ih => simp [hashToHex, hexByte] at ih ⊢; omega

theorem hashToHex_no_quote (H : List Nat) (hH : ∀ b ∈ H, b < 256) :
    ∀ c ∈ hashToHex H, c ≠ 34 :=
  fun c hc => (isHexLower_facts c (hashToHex_chars H hH c hc)).1

theorem stoi16_hexByte : ∀ b, b < 256 → stoi16 (hexByte b) = Except.ok (Int.ofNat b) := by
  decide

theorem stoi16_hexByte_toByte : ∀ b, b < 256 →
    (stoi16 (hexByte b) >>= fun v => (pure ((v % 256).toNat) : Except Unit Nat)) =
      Except.ok b := by
  decide

theorem stoiByte_eq (s : List Nat) (pos : Nat) (b : Nat) (hb : b < 256)
    (hlen : ¬ s.length < pos) (htake : (s.drop pos).take 2 = hexByte b) :
    stoiByte s pos = Except.ok b := by
  have hs : substr2 s pos = Except.ok (hexByte b) := by
    unfold substr2; rw [if_neg hlen, htake]
  unfold stoiByte
  rw [hs]
  simpa only [bind, Except.bind] using stoi16_hexByte_toByte b hb

theorem hexToHashAux_roundtrip (bs : List Nat) :
    ∀ (s : List Nat) (i : Nat),
      (∀ b ∈ bs, b < 256) →
      s.drop (2 * i) = (bs.map hexByte).flatten →
      2 * i ≤ s.length →
      hexToHashAux s bs.length i = Except.ok bs := by
  induction bs with
  | nil => intro s i _ _ _; rfl
  | cons b rest ih =>
      intro s i hlt hdrop hle
      have hblt : b < 256 := hlt b (by simp)
      have hbl2 : (hexByte b).length = 2 := rfl
      have hdl : (s.drop (2 * i)).length = s.length - 2 * i := List.length_drop _ _
      have hlen2 : 2 * i + 2 ≤ s.length := by
        rw [hdrop] at hdl
        simp only [List.map_cons, List.flatten_cons, List.length_append, hbl2] at hdl
        omega
      have htake : (s.drop (2 * i)).take 2 = hexByte b := by
        rw [hdrop]
        simp only [List.map_cons, List.flatten_cons]
        rw [← hbl2, List.take_left]
      have hdrop2 : s.drop (2 * (i + 1)) = (rest.map hexByte).flatten := by
        have he : 2 * (i + 1) = 2 * i + 2 := by omega
        rw [he, ← List.drop_drop, hdrop]
        simp only [List.map_cons, List.flatten_cons]
        rw [← hbl2, List.drop_left]
      show hexToHashAux s (rest.length + 1) i = _
      simp only [hexToHashAux, bind, Except.bind]
      rw [stoiByte_eq s (2 * i) b hblt (by omega) htake]
      rw [ih s (i + 1) (fun x hx => hlt x (by simp [hx])) hdrop2 (by omega)]
      rfl

theorem hexToHash_hashToHex (H : List Nat) (h : isHash H) :
    hexToHash (hashToHex H) = Except.ok H := by
  have h32 : H.length = 32 := h.1
  unfold hexToHash
  rw [← h32]
  exact hexToHashAux_roundtrip H (hashToHex H) 0 h.2 (by simp [hashToHex]) (by omega)

theorem hashToHex_inj (H1 H2 : List Nat) (h1 : isHash H1) (h2 : isHash H2)
    (he : hashToHex H1 = hashToHex H2) : H1 = H2 := by
  have r1 := hexToHash_hashToHex H1 h1
  have r2 := hexToHash_hashToHex H2 h2
  rw [he, r2] at r1
  exact (Except.ok.injEq _ _ ▸ r1).symm

/-! ### The literal segments spelled out -/

theorem lit_spellings :
    lit1 = asciiB "\x7b\"device_id\":\"" ∧ lit2 = asciiB "\",\"timestamp\":\"" ∧
    lit3a = asciiB "\",\"user_id\":" ∧ lit3b = asciiB ",\"severity\":" ∧
    lit3c = asciiB ",\"message\":\"" ∧ needleP = asciiB "\"previous_hash\":\"" ∧
    needleC = asciiB "\"chain_hash\":\"" ∧ litEnd = asciiB "\"\x7d" := by
  refine ⟨by decide, by decide, by decide, by decide, by decide, by decide,
    by decide, by decide⟩

theorem needleP_shape : needleP = 34 :: ([112,114,101,118,105,111,117,115,95,104,97,115,104] ++ [34,58,34]) := by decide

theorem needleC_shape : needleC = 34 :: ([99,104,97,105,110,95,104,97,115,104] ++ [34,58,34]) := by decide

/-! ### Substring search: basic lemmas -/

theorem startsW_self_append (N Z : List Nat) : startsW N (N ++ Z) = true := by
  induction N with
  | nil => rfl
  | cons c t ih => simp [startsW, ih]

theorem strfind_cons_skip (N : List Nat) (c : Nat) (T : List Nat)
    (h : startsW N (c :: T) = false) :
    strfind N (c :: T) = (strfind N T).map (· + 1) := by
  simp [strfind, h]

theorem strfind_append_skip (N : List Nat) :
    ∀ (X Y : List Nat), (∀ i, i < X.length → startsW N (X.drop i ++ Y) = false) →
      strfind N (X ++ Y) = (strfind N Y).map (· + X.length) := by
  intro X
  induction X with
  | nil => intro Y _; cases hf : strfind N Y <;> simp [hf]
  | cons c X' ih =>
      intro Y h
      have h0 : startsW N (c :: (X' ++ Y)) = false := by
        simpa using h 0 (by simp)
      rw [List.cons_append, strfind_cons_skip _ _ _ h0,
        ih Y (fun i hi => by simpa using h (i + 1) (by simpa using Nat.succ_lt_succ hi))]
      cases hf : strfind N Y <;> simp [hf]
      omega

theorem strfind_qf (N' : List Nat) :
    ∀ (X : List Nat), (∀ c ∈ X, c ≠ 34) → ∀ Y,
      strfind (34 :: N') (X ++ Y) = (strfind (34 :: N') Y).map (· + X.length) := by
  intro X
  induction X with
  | nil => intro _ Y; cases hf : strfind (34 :: N') Y <;> simp [hf]
  | cons c X' ih =>
      intro hX Y
      have hc : (34 == c) = false := by
        have h1 : c ≠ 34 := hX c (by simp)
        simp [Ne.symm h1]
      have h0 : startsW (34 :: N') (c :: (X' ++ Y)) = false := by
        simp [startsW, hc]
      rw [List.cons_append, strfind_cons_skip _ _ _ h0,
        ih (fun d hd => hX d (by simp [hd])) Y]
      cases hf : strfind (34 :: N') Y <;> simp [hf]
      omega

/-! ### Why a verifier key cannot match early

A key tail has the shape `K0 ++ [34,58,34]` with `K0` quote-free: matching
it against a quote-free segment followed by the closing `",` of a JSON
value fails, and likewise against an escaped message followed by `",`. -/

theorem key_no_match_qf :
    ∀ (Q K0 : List Nat), (∀ c ∈ Q, c ≠ 34) → (∀ c ∈ K0, c ≠ 34) → ∀ R,
      startsW (K0 ++ [34, 58, 34]) (Q ++ 34 :: 44 :: R) = false := by
  intro Q
  induction Q with
  | nil =>
      intro K0 _ hK0 R
      cases K0 with
      | nil => simp [startsW]
      | cons κ K0' =>
          have hκ : (κ == 34) = false := by
            have h1 : κ ≠ 34 := hK0 κ (by simp)
            simp [h1]
          simp [startsW, hκ]
  | cons d Q' ih =>
      intro K0 hQ hK0 R
      have hd : d ≠ 34 := hQ d (by simp)
      cases K0 with
      | nil =>
          have h34 : (34 == d) = false := by simp [Ne.symm hd]
          simp [startsW, h34]
      | cons κ K0' =>
          have hrec := ih K0' (fun c hc => hQ c (by simp [hc]))
            (fun c hc => hK0 c (by simp [hc])) R
          simp [startsW, hrec]

theorem key_no_match_esc :
    ∀ (m K0 : List Nat), (∀ c ∈ K0, c ≠ 34 ∧ c ≠ 92) → ∀ R,
      startsW (K0 ++ [34, 58, 34]) (escapeJson m ++ 34 :: 44 :: R) = false := by
  intro m
  induction m with
  | nil =>
      intro K0 hK0 R
      show startsW (K0 ++ [34, 58, 34]) (escapeJson [] ++ 34 :: 44 :: R) = false
      have : escapeJson [] = [] := rfl
      rw [this, List.nil_append]
      cases K0 with
      | nil => simp [startsW]
      | cons κ K0' =>
          have hκ : (κ == 34) = false := by simp [(hK0 κ (by simp)).1]
          simp [startsW, hκ]
  | cons c t ih =>
      intro K0 hK0 R
      have hstep : escapeJson (c :: t) = escUnit c ++ escapeJson t := by
        simp [escapeJson]
      rw [hstep, List.append_assoc]
      -- every escape unit starts with a backslash or with the plain
      -- character `c`, which in that branch is not a quote
      have hhead : ∀ (z : Nat) (T : List Nat),
          startsW (K0 ++ [34, 58, 34]) (92 :: z :: T) = false := by
        intro z T
        cases K0 with
        | nil => simp [startsW]
        | cons κ K0' =>
            have hκ : (κ == 92) = false := by simp [(hK0 κ (by simp)).2]
            simp [startsW, hκ]
      by_cases h34 : c = 34
      · subst h34; exact hhead _ _
      by_cases h92 : c = 92
      · subst h92; exact hhead _ _
      by_cases h8 : c = 8
      · subst h8; exact hhead _ _
      by_cases h12 : c = 12
      · subst h12; exact hhead _ _
      by_cases h10 : c = 10
      · subst h10; exact hhead _ _
      by_cases h13 : c = 13
      · subst h13; exact hhead _ _
      by_cases h9 : c = 9
      · subst h9; exact hhead _ _
      by_cases hctl : c < 32
      · have hu : escUnit c = [92, 117, 48, 48, hexDigitCh (c / 16), hexDigitCh (c % 16)] := by
          simp [escUnit, h34, h92, h8, h12, h10, h13, h9, hctl]
        rw [hu]; exact hhead _ _
      · have hu : escUnit c = [c] := by
          simp [escUnit, h34, h92, h8, h12, h10, h13, h9, hctl]
        rw [hu]
        cases K0 with
        | nil =>
            have h34c : (34 == c) = false := by simp [Ne.symm h34]
            simp [startsW, h34c]
        | cons κ K0' =>
            have hrec := ih K0' (fun d hd => hK0 d (by simp [hd])) R
            simp [startsW, hrec]

theorem startsW_quote_key (K0 : List Nat) (hK0 : ∀ c ∈ K0, c ≠ 34)
    (D rest : List Nat) (hD : ∀ c ∈ D, c ≠ 34) :
    startsW (34 :: (K0 ++ [34, 58, 34])) (34 :: (D ++ 34 :: 44 :: rest)) = false := by
  simp only [startsW, beq_self_eq_true, Bool.true_and]
  exact key_no_match_qf D K0 hD hK0 rest

theorem startsW_quote_key_esc (K0 : List Nat) (hK0 : ∀ c ∈ K0, c ≠ 34 ∧ c ≠ 92)
    (m rest : List Nat) :
    startsW (34 :: (K0 ++ [34, 58, 34]))
      (34 :: (escapeJson m ++ 34 :: 44 :: rest)) = false := by
  simp only [startsW, beq_self_eq_true, Bool.true_and]
  exact key_no_match_esc m K0 hK0 rest

theorem hexDigitCh_ne_34 (n : Nat) : (34 == hexDigitCh n) = false := by
  have h : hexDigitCh n ≠ 34 := by unfold hexDigitCh; split <;> omega
  simp [Ne.symm h]

/-- The search for a verifier key skips an entire escaped message: no
occurrence of `"key...":"` can begin inside `escape_json` output followed
by the closing `",` of the message value. -/
theorem strfind_esc (K0 : List Nat) (hK0 : ∀ c ∈ K0, c ≠ 34 ∧ c ≠ 92) :
    ∀ (m R : List Nat),
      strfind (34 :: (K0 ++ [34, 58, 34])) (escapeJson m ++ 34 :: 44 :: R)
        = (strfind (34 :: (K0 ++ [34, 58, 34])) (34 :: 44 :: R)).map
            (· + (escapeJson m).length) := by
  intro m
  induction m with
  | nil =>
      intro R
      cases hf : strfind (34 :: (K0 ++ [34, 58, 34])) (34 :: 44 :: R) <;>
        simp [escapeJson, hf]
  | cons c t ih =>
      intro R
      have hstep : escapeJson (c :: t) = escUnit c ++ escapeJson t := by
        simp [escapeJson]
      have hlen : (escapeJson (c :: t)).length = (escUnit c).length + (escapeJson t).length := by
        simp [hstep]
      rw [hstep, List.append_assoc]
      by_cases h34 : c = 34
      · have hu : escUnit c = [92, 34] := by simp [escUnit, h34]
        rw [hu]
        simp only [List.cons_append, List.nil_append]
        rw [strfind_cons_skip _ _ _ (by simp [startsW]),
            strfind_cons_skip _ _ _ (startsW_quote_key_esc K0 hK0 t R), ih R]
        cases hf : strfind (34 :: (K0 ++ [34, 58, 34])) (34 :: 44 :: R) <;>
          simp [hf, hlen, hu] <;> omega
      by_cases h92 : c = 92
      · have hu : escUnit c = [92, 92] := by simp [escUnit, h34, h92]
        rw [hu]
        simp only [List.cons_append, List.nil_append]
        rw [strfind_cons_skip _ _ _ (by simp [startsW]),
            strfind_cons_skip _ _ _ (by simp [startsW]), ih R]
        cases hf : strfind (34 :: (K0 ++ [34, 58, 34])) (34 :: 44 :: R) <;>
          simp [hf, hlen, hu] <;> omega
      by_cases h8 : c = 8
      · have hu : escUnit c = [92, 98] := by simp [escUnit, h34, h92, h8]
        rw [hu]
        simp only [List.cons_append, List.nil_append]
        rw [strfind_cons_skip _ _ _ (by simp [startsW]),
            strfind_cons_skip _ _ _ (by simp [startsW]), ih R]
        cases hf : strfind (34 :: (K0 ++ [34, 58, 34])) (34 :: 44 :: R) <;>
          simp [hf, hlen, hu] <;> omega
      by_cases h12 : c = 12
      · have hu : escUnit c = [92, 102] := by simp [escUnit, h34, h92, h8, h12]
        rw [hu]
        simp only [List.cons_append, List.nil_append]
        rw [strfind_cons_skip _ _ _ (by simp [startsW]),
            strfind_cons_skip _ _ _ (by simp [startsW]), ih R]
        cases hf : strfind (34 :: (K0 ++ [34, 58, 34])) (34 :: 44 :: R) <;>
          simp [hf, hlen, hu] <;> omega
      by_cases h10 : c = 10
      · have hu : escUnit c = [92, 110] := by simp [escUnit, h34, h92, h8, h12, h10]
        rw [hu]
        simp only [List.cons_append, List.nil_append]
        rw [strfind_cons_skip _ _ _ (by simp [startsW]),
            strfind_cons_skip _ _ _ (by simp [startsW]), ih R]
        cases hf : strfind (34 :: (K0 ++ [34, 58, 34])) (34 :: 44 :: R) <;>
          simp [hf, hlen, hu] <;> omega
      by_cases h13 : c = 13
      · have hu : escUnit c = [92, 114] := by simp [escUnit, h34, h92, h8, h12, h10, h13]
        rw [hu]
        simp only [List.cons_append, List.nil_append]
        rw [strfind_cons_skip _ _ _ (by simp [startsW]),
            strfind_cons_skip _ _ _ (by simp [startsW]), ih R]
        cases hf : strfind (34 :: (K0 ++ [34, 58, 34])) (34 :: 44 :: R) <;>
          simp [hf, hlen, hu] <;> omega
      by_cases h9 : c = 9
      · have hu : escUnit c = [92, 116] := by simp [escUnit, h34, h92, h8, h12, h10, h13, h9]
        rw [hu]
        simp only [List.cons_append, List.nil_append]
        rw [strfind_cons_skip _ _ _ (by simp [startsW]),
            strfind_cons_skip _ _ _ (by simp [startsW]), ih R]
        cases hf : strfind (34 :: (K0 ++ [34, 58, 34])) (34 :: 44 :: R) <;>
          simp [hf, hlen, hu] <;> omega
      by_cases hctl : c < 32
      · have hu : escUnit c = [92, 117, 48, 48, hexDigitCh (c / 16), hexDigitCh (c % 16)] := by
          simp [escUnit, h34, h92, h8, h12, h10, h13, h9, hctl]
        rw [hu]
        simp only [List.cons_append, List.nil_append]
        rw [strfind_cons_skip _ _ _ (by simp [startsW]),
            strfind_cons_skip _ _ _ (by simp [startsW]),
            strfind_cons_skip _ _ _ (by simp [startsW]),
            strfind_cons_skip _ _ _ (by simp [startsW]),
            strfind_cons_skip _ _ _ (by simp [startsW, hexDigitCh_ne_34]),
            strfind_cons_skip _ _ _ (by simp [startsW, hexDigitCh_ne_34]), ih R]
        cases hf : strfind (34 :: (K0 ++ [34, 58, 34])) (34 :: 44 :: R) <;>
          simp [hf, hlen, hu] <;> omega
      · have hu : escUnit c = [c] := by simp [escUnit, h34, h92, h8, h12, h10, h13, h9, hctl]
        have hc : (34 == c) = false := by simp [Ne.symm h34]
        rw [hu]
        simp only [List.cons_append, List.nil_append]
        rw [strfind_cons_skip _ _ _ (by simp [startsW, hc]), ih R]
        cases hf : strfind (34 :: (K0 ++ [34, 58, 34])) (34 :: 44 :: R) <;>
          simp [hf, hlen, hu] <;> omega

theorem skip_lit1_P (V rest : List Nat) (hV : ∀ c ∈ V, c ≠ 34) :
    strfind (34 :: ([112, 114, 101, 118, 105, 111, 117, 115, 95, 104, 97, 115, 104] ++ [34, 58, 34])) (123 :: 34 :: 100 :: 101 :: 118 :: 105 :: 99 :: 101 :: 95 :: 105 :: 100 :: 34 :: 58 :: 34 :: (V ++ (34 :: 44 :: rest)))
      = (strfind (34 :: ([112, 114, 101, 118, 105, 111, 117, 115, 95, 104, 97, 115, 104] ++ [34, 58, 34])) (V ++ (34 :: 44 :: rest))).map (· + 14) := by
  rw [strfind_cons_skip _ _ _ (by simp [startsW, List.cons_append, List.nil_append]),
      strfind_cons_skip _ _ _ (by simp [startsW, List.cons_append, List.nil_append]),
      strfind_cons_skip _ _ _ (by simp [startsW, List.cons_append, List.nil_append]),
      strfind_cons_skip _ _ _ (by simp [startsW, List.cons_append, List.nil_append]),
      strfind_cons_skip _ _ _ (by simp [startsW, List.cons_append, List.nil_append]),
      strfind_cons_skip _ _ _ (by simp [startsW, List.cons_append, List.nil_append]),
      strfind_cons_skip _ _ _ (by simp [startsW, List.cons_append, List.nil_append]),
      strfind_cons_skip _ _ _ (by simp [startsW, List.cons_append, List.nil_append]),
      strfind_cons_skip _ _ _ (by simp [startsW, List.cons_append, List.nil_append]),
      strfind_cons_skip _ _ _ (by simp [startsW, List.cons_append, List.nil_append]),
      strfind_cons_skip _ _ _ (by simp [startsW, List.cons_append, List.nil_append]),
      strfind_cons_skip _ _ _ (by simp [startsW, List.cons_append, List.nil_append]),
      strfind_cons_skip _ _ _ (by simp [startsW, List.cons_append, List.nil_append]),
      strfind_cons_skip _ _ _ (startsW_quote_key [112, 114, 101, 118, 105, 111, 117, 115, 95, 104, 97, 115, 104] (by decide) V rest hV)]
  cases hf : strfind (34 :: ([112, 114, 101, 118, 105, 111, 117, 115, 95, 104, 97, 115, 104] ++ [34, 58, 34])) (V ++ (34 :: 44 :: rest)) <;> simp [hf] <;> omega

theorem skip_lit2_P (V rest : List Nat) (hV : ∀ c ∈ V, c ≠ 34) :
    strfind (34 :: ([112, 114, 101, 118, 105, 111, 117, 115, 95, 104, 97, 115, 104] ++ [34, 58, 34])) (34 :: 44 :: 34 :: 116 :: 105 :: 109 :: 101 :: 115 :: 116 :: 97 :: 109 :: 112 :: 34 :: 58 :: 34 :: (V ++ (34 :: 44 :: rest)))
      = (strfind (34 :: ([112, 114, 101, 118, 105, 111, 117, 115, 95, 104, 97, 115, 104] ++ [34, 58, 34])) (V ++ (34 :: 44 :: rest))).map (· + 15) := by
  rw [strfind_cons_skip _ _ _ (by simp [startsW, List.cons_append, List.nil_append]),
      strfind_cons_skip _ _ _ (by simp [startsW, List.cons_append, List.nil_append]),
      strfind_cons_skip _ _ _ (by simp [startsW, List.cons_append, List.nil_append]),
      strfind_cons_skip _ _ _ (by simp [startsW, List.cons_append, List.nil_append]),
      strfind_cons_skip _ _ _ (by simp [startsW, List.cons_append, List.nil_append]),
      strfind_cons_skip _ _ _ (by simp [startsW, List.cons_append, List.nil_append]),
      strfind_cons_skip _ _ _ (by simp [startsW, List.cons_append, List.nil_append]),
      strfind_cons_skip _ _ _ (by simp [startsW, List.cons_append, List.nil_append]),
      strfind_cons_skip _ _ _ (by simp [startsW, List.cons_append, List.nil_append]),
      strfind_cons_skip _ _ _ (by simp [startsW, List.cons_append, List.nil_append]),
      strfind_cons_skip _ _ _ (by simp [startsW, List.cons_append, List.nil_append]),
      strfind_cons_skip _ _ _ (by simp [startsW, List.cons_append, List.nil_append]),
      strfind_cons_skip _ _ _ (by simp [startsW, List.cons_append, List.nil_append]),
      strfind_cons_skip _ _ _ (by simp [startsW, List.cons_append, List.nil_append]),
      strfind_cons_skip _ _ _ (startsW_quote_key [112, 114, 101, 118, 105, 111, 117, 115, 95, 104, 97, 115, 104] (by decide) V rest hV)]
  cases hf : strfind (34 :: ([112, 114, 101, 118, 105, 111, 117, 115, 95, 104, 97, 115, 104] ++ [34, 58, 34])) (V ++ (34 :: 44 :: rest)) <;> simp [hf] <;> omega

theorem skip_lit3a_P (T : List Nat) :
    strfind (34 :: ([112, 114, 101, 118, 105, 111, 117, 115, 95, 104, 97, 115, 104] ++ [34, 58, 34])) (34 :: 44 :: 34 :: 117 :: 115 :: 101 :: 114 :: 95 :: 105 :: 100 :: 34 :: 58 :: T)
      = (strfind (34 :: ([112, 114, 101, 118, 105, 111, 117, 115, 95, 104, 97, 115, 104] ++ [34, 58, 34])) T).map (· + 12) := by
  rw [strfind_cons_skip _ _ _ (by simp [startsW, List.cons_append, List.nil_append]),
      strfind_cons_skip _ _ _ (by simp [startsW, List.cons_append, List.nil_append]),
      strfind_cons_skip _ _ _ (by simp [startsW, List.cons_append, List.nil_append]),
      strfind_cons_skip _ _ _ (by simp [startsW, List.cons_append, List.nil_append]),
      strfind_cons_skip _ _ _ (by simp [startsW, List.cons_append, List.nil_append]),
      strfind_cons_skip _ _ _ (by simp [startsW, List.cons_append, List.nil_append]),
      strfind_cons_skip _ _ _ (by simp [startsW, List.cons_append, List.nil_append]),
      strfind_cons_skip _ _ _ (by simp [startsW, List.cons_append, List.nil_append]),
      strfind_cons_skip _ _ _ (by simp [startsW, List.cons_append, List.nil_append]),
      strfind_cons_skip _ _ _ (by simp [startsW, List.cons_append, List.nil_append]),
      strfind_cons_skip _ _ _ (by simp [startsW, List.cons_append, List.nil_append]),
      strfind_cons_skip _ _ _ (by simp [startsW, List.cons_append, List.nil_append])]
  cases hf : strfind (34 :: ([112, 114, 101, 118, 105, 111, 117, 115, 95, 104, 97, 115, 104] ++ [34, 58, 34])) T <;> simp [hf] <;> omega

theorem skip_lit3b_P (T : List Nat) :
    strfind (34 :: ([112, 114, 101, 118, 105, 111, 117, 115, 95, 104, 97, 115, 104] ++ [34, 58, 34])) (44 :: 34 :: 115 :: 101 :: 118 :: 101 :: 114 :: 105 :: 116 :: 121 :: 34 :: 58 :: T)
      = (strfind (34 :: ([112, 114, 101, 118, 105, 111, 117, 115, 95, 104, 97, 115, 104] ++ [34, 58, 34])) T).map (· + 12) := by
  rw [strfind_cons_skip _ _ _ (by simp [startsW, List.cons_append, List.nil_append]),
      strfind_cons_skip _ _ _ (by simp [startsW, List.cons_append, List.nil_append]),
      strfind_cons_skip _ _ _ (by simp [startsW, List.cons_append, List.nil_append]),
      strfind_cons_skip _ _ _ (by simp [startsW, List.cons_append, List.nil_append]),
      strfind_cons_skip _ _ _ (by simp [startsW, List.cons_append, List.nil_append]),
      strfind_cons_skip _ _ _ (by simp [startsW, List.cons_append, List.nil_append]),
      strfind_cons_skip _ _ _ (by simp [startsW, List.cons_append, List.nil_append]),
      strfind_cons_skip _ _ _ (by simp [startsW, List.cons_append, List.nil_append]),
      strfind_cons_skip _ _ _ (by simp [startsW, List.cons_append, List.nil_append]),
      strfind_cons_skip _ _ _ (by simp [startsW, List.cons_append, List.nil_append]),
      strfind_cons_skip _ _ _ (by simp [startsW, List.cons_append, List.nil_append]),
      strfind_cons_skip _ _ _ (by simp [startsW, List.cons_append, List.nil_append])]
  cases hf : strfind (34 :: ([112, 114, 101, 118, 105, 111, 117, 115, 95, 104, 97, 115, 104] ++ [34, 58, 34])) T <;> simp [hf] <;> omega

theorem skip_lit3c_P (m rest : List Nat) :
    strfind (34 :: ([112, 114, 101, 118, 105, 111, 117, 115, 95, 104, 97, 115, 104] ++ [34, 58, 34])) (44 :: 34 :: 109 :: 101 :: 115 :: 115 :: 97 :: 103 :: 101 :: 34 :: 58 :: 34 :: (escapeJson m ++ (34 :: 44 :: rest)))
      = (strfind (34 :: ([112, 114, 101, 118, 105, 111, 117, 115, 95, 104, 97, 115, 104] ++ [34, 58, 34])) (escapeJson m ++ (34 :: 44 :: rest))).map (· + 12) := by
  rw [strfind_cons_skip _ _ _ (by simp [startsW, List.cons_append, List.nil_append]),
      strfind_cons_skip _ _ _ (by simp [startsW, List.cons_append, List.nil_append]),
      strfind_cons_skip _ _ _ (by simp [startsW, List.cons_append, List.nil_append]),
      strfind_cons_skip _ _ _ (by simp [startsW, List.cons_append, List.nil_append]),
      strfind_cons_skip _ _ _ (by simp [startsW, List.cons_append, List.nil_append]),
      strfind_cons_skip _ _ _ (by simp [startsW, List.cons_append, List.nil_append]),
      strfind_cons_skip _ _ _ (by simp [startsW, List.cons_append, List.nil_append]),
      strfind_cons_skip _ _ _ (by simp [startsW, List.cons_append, List.nil_append]),
      strfind_cons_skip _ _ _ (by simp [startsW, List.cons_append, List.nil_append]),
      strfind_cons_skip _ _ _ (by simp [startsW, List.cons_append, List.nil_append]),
      strfind_cons_skip _ _ _ (by simp [startsW, List.cons_append, List.nil_append]),
      strfind_cons_skip _ _ _ (startsW_quote_key_esc [112, 114, 101, 118, 105, 111, 117, 115, 95, 104, 97, 115, 104] (by decide) m rest)]
  cases hf : strfind (34 :: ([112, 114, 101, 118, 105, 111, 117, 115, 95, 104, 97, 115, 104] ++ [34, 58, 34])) (escapeJson m ++ (34 :: 44 :: rest)) <;> simp [hf] <;> omega

theorem skip_lit1_C (V rest : List Nat) (hV : ∀ c ∈ V, c ≠ 34) :
    strfind (34 :: ([99, 104, 97, 105, 110, 95, 104, 97, 115, 104] ++ [34, 58, 34])) (123 :: 34 :: 100 :: 101 :: 118 :: 105 :: 99 :: 101 :: 95 :: 105 :: 100 :: 34 :: 58 :: 34 :: (V ++ (34 :: 44 :: rest)))
      = (strfind (34 :: ([99, 104, 97, 105, 110, 95, 104, 97, 115, 104] ++ [34, 58, 34])) (V ++ (34 :: 44 :: rest))).map (· + 14) := by
  rw [strfind_cons_skip _ _ _ (by simp [startsW, List.cons_append, List.nil_append]),
      strfind_cons_skip _ _ _ (by simp [startsW, List.cons_append, List.nil_append]),
      strfind_cons_skip _ _ _ (by simp [startsW, List.cons_append, List.nil_append]),
      strfind_cons_skip _ _ _ (by simp [startsW, List.cons_append, List.nil_append]),
      strfind_cons_skip _ _ _ (by simp [startsW, List.cons_append, List.nil_append]),
      strfind_cons_skip _ _ _ (by simp [startsW, List.cons_append, List.nil_append]),
      strfind_cons_skip _ _ _ (by simp [startsW, List.cons_append, List.nil_append]),
      strfind_cons_skip _ _ _ (by simp [startsW, List.cons_append, List.nil_append]),
      strfind_cons_skip _ _ _ (by simp [startsW, List.cons_append, List.nil_append]),
      strfind_cons_skip _ _ _ (by simp [startsW, List.cons_append, List.nil_append]),
      strfind_cons_skip _ _ _ (by simp [startsW, List.cons_append, List.nil_append]),
      strfind_cons_skip _ _ _ (by simp [startsW, List.cons_append, List.nil_append]),
      strfind_cons_skip _ _ _ (by simp [startsW, List.cons_append, List.nil_append]),
      strfind_cons_skip _ _ _ (startsW_quote_key [99, 104, 97, 105, 110, 95, 104, 97, 115, 104] (by decide) V rest hV)]
  cases hf : strfind (34 :: ([99, 104, 97, 105, 110, 95, 104, 97, 115, 104] ++ [34, 58, 34])) (V ++ (34 :: 44 :: rest)) <;> simp [hf] <;> omega

theorem skip_lit2_C (V rest : List Nat) (hV : ∀ c ∈ V, c ≠ 34) :
    strfind (34 :: ([99, 104, 97, 105, 110, 95, 104, 97, 115, 104] ++ [34, 58, 34])) (34 :: 44 :: 34 :: 116 :: 105 :: 109 :: 101 :: 115 :: 116 :: 97 :: 109 :: 112 :: 34 :: 58 :: 34 :: (V ++ (34 :: 44 :: rest)))
      = (strfind (34 :: ([99, 104, 97, 105, 110, 95, 104, 97, 115, 104] ++ [34, 58, 34])) (V ++ (34 :: 44 :: rest))).map (· + 15) := by
  rw [strfind_cons_skip _ _ _ (by simp [startsW, List.cons_append, List.nil_append]),
      strfind_cons_skip _ _ _ (by simp [startsW, List.cons_append, List.nil_append]),
      strfind_cons_skip _ _ _ (by simp [startsW, List.cons_append, List.nil_append]),
      strfind_cons_skip _ _ _ (by simp [startsW, List.cons_append, List.nil_append]),
      strfind_cons_skip _ _ _ (by simp [startsW, List.cons_append, List.nil_append]),
      strfind_cons_skip _ _ _ (by simp [startsW, List.cons_append, List.nil_append]),
      strfind_cons_skip _ _ _ (by simp [startsW, List.cons_append, List.nil_append]),
      strfind_cons_skip _ _ _ (by simp [startsW, List.cons_append, List.nil_append]),
      strfind_cons_skip _ _ _ (by simp [startsW, List.cons_append, List.nil_append]),
      strfind_cons_skip _ _ _ (by simp [startsW, List.cons_append, List.nil_append]),
      strfind_cons_skip _ _ _ (by simp [startsW, List.cons_append, List.nil_append]),
      strfind_cons_skip _ _ _ (by simp [startsW, List.cons_append, List.nil_append]),
      strfind_cons_skip _ _ _ (by simp [startsW, List.cons_append, List.nil_append]),
      strfind_cons_skip _ _ _ (by simp [startsW, List.cons_append, List.nil_append]),
      strfind_cons_skip _ _ _ (startsW_quote_key [99, 104, 97, 105, 110, 95, 104, 97, 115, 104] (by decide) V rest hV)]
  cases hf : strfind (34 :: ([99, 104, 97, 105, 110, 95, 104, 97, 115, 104] ++ [34, 58, 34])) (V ++ (34 :: 44 :: rest)) <;> simp [hf] <;> omega

theorem skip_lit3a_C (T : List Nat) :
    strfind (34 :: ([99, 104, 97, 105, 110, 95, 104, 97, 115, 104] ++ [34, 58, 34])) (34 :: 44 :: 34 :: 117 :: 115 :: 101 :: 114 :: 95 :: 105 :: 100 :: 34 :: 58 :: T)
      = (strfind (34 :: ([99, 104, 97, 105, 110, 95, 104, 97, 115, 104] ++ [34, 58, 34])) T).map (· + 12) := by
  rw [strfind_cons_skip _ _ _ (by simp [startsW, List.cons_append, List.nil_append]),
      strfind_cons_skip _ _ _ (by simp [startsW, List.cons_append, List.nil_append]),
      strfind_cons_skip _ _ _ (by simp [startsW, List.cons_append, List.nil_append]),
      strfind_cons_skip _ _ _ (by simp [startsW, List.cons_append, List.nil_append]),
      strfind_cons_skip _ _ _ (by simp [startsW, List.cons_append, List.nil_append]),
      strfind_cons_skip _ _ _ (by simp [startsW, List.cons_append, List.nil_append]),
      strfind_cons_skip _ _ _ (by simp [startsW, List.cons_append, List.nil_append]),
      strfind_cons_skip _ _ _ (by simp [startsW, List.cons_append, List.nil_append]),
      strfind_cons_skip _ _ _ (by simp [startsW, List.cons_append, List.nil_append]),
      strfind_cons_skip _ _ _ (by simp [startsW, List.cons_append, List.nil_append]),
      strfind_cons_skip _ _ _ (by simp [startsW, List.cons_append, List.nil_append]),
      strfind_cons_skip _ _ _ (by simp [startsW, List.cons_append, List.nil_append])]
  cases hf : strfind (34 :: ([99, 104, 97, 105, 110, 95, 104, 97, 115, 104] ++ [34, 58, 34])) T <;> simp [hf] <;> omega

theorem skip_lit3b_C (T : List Nat) :
    strfind (34 :: ([99, 104, 97, 105, 110, 95, 104, 97, 115, 104] ++ [34, 58, 34])) (44 :: 34 :: 115 :: 101 :: 118 :: 101 :: 114 :: 105 :: 116 :: 121 :: 34 :: 58 :: T)
      = (strfind (34 :: ([99, 104, 97, 105, 110, 95, 104, 97, 115, 104] ++ [34, 58, 34])) T).map (· + 12) := by
  rw [strfind_cons_skip _ _ _ (by simp [startsW, List.cons_append, List.nil_append]),
      strfind_cons_skip _ _ _ (by simp [startsW, List.cons_append, List.nil_append]),
      strfind_cons_skip _ _ _ (by simp [startsW, List.cons_append, List.nil_append]),
      strfind_cons_skip _ _ _ (by simp [startsW, List.cons_append, List.nil_append]),
      strfind_cons_skip _ _ _ (by simp [startsW, List.cons_append, List.nil_append]),
      strfind_cons_skip _ _ _ (by simp [startsW, List.cons_append, List.nil_append]),
      strfind_cons_skip _ _ _ (by simp [startsW, List.cons_append, List.nil_append]),
      strfind_cons_skip _ _ _ (by simp [startsW, List.cons_append, List.nil_append]),
      strfind_cons_skip _ _ _ (by simp [startsW, List.cons_append, List.nil_append]),
      strfind_cons_skip _ _ _ (by simp [startsW, List.cons_append, List.nil_append]),
      strfind_cons_skip _ _ _ (by simp [startsW, List.cons_append, List.nil_append]),
      strfind_cons_skip _ _ _ (by simp [startsW, List.cons_append, List.nil_append])]
  cases hf : strfind (34 :: ([99, 104, 97, 105, 110, 95, 104, 97, 115, 104] ++ [34, 58, 34])) T <;> simp [hf] <;> omega

theorem skip_lit3c_C (m rest : List Nat) :
    strfind (34 :: ([99, 104, 97, 105, 110, 95, 104, 97, 115, 104] ++ [34, 58, 34])) (44 :: 34 :: 109 :: 101 :: 115 :: 115 :: 97 :: 103 :: 101 :: 34 :: 58 :: 34 :: (escapeJson m ++ (34 :: 44 :: rest)))
      = (strfind (34 :: ([99, 104, 97, 105, 110, 95, 104, 97, 115, 104] ++ [34, 58, 34])) (escapeJson m ++ (34 :: 44 :: rest))).map (· + 12) := by
  rw [strfind_cons_skip _ _ _ (by simp [startsW, List.cons_append, List.nil_append]),
      strfind_cons_skip _ _ _ (by simp [startsW, List.cons_append, List.nil_append]),
      strfind_cons_skip _ _ _ (by simp [startsW, List.cons_append, List.nil_append]),
      strfind_cons_skip _ _ _ (by simp [startsW, List.cons_append, List.nil_append]),
      strfind_cons_skip _ _ _ (by simp [startsW, List.cons_append, List.nil_append]),
      strfind_cons_skip _ _ _ (by simp [startsW, List.cons_append, List.nil_append]),
      strfind_cons_skip _ _ _ (by simp [startsW, List.cons_append, List.nil_append]),
      strfind_cons_skip _ _ _ (by simp [startsW, List.cons_append, List.nil_append]),
      strfind_cons_skip _ _ _ (by simp [startsW, List.cons_append, List.nil_append]),
      strfind_cons_skip _ _ _ (by simp [startsW, List.cons_append, List.nil_append]),
      strfind_cons_skip _ _ _ (by simp [startsW, List.cons_append, List.nil_append]),
      strfind_cons_skip _ _ _ (startsW_quote_key_esc [99, 104, 97, 105, 110, 95, 104, 97, 115, 104] (by decide) m rest)]
  cases hf : strfind (34 :: ([99, 104, 97, 105, 110, 95, 104, 97, 115, 104] ++ [34, 58, 34])) (escapeJson m ++ (34 :: 44 :: rest)) <;> simp [hf] <;> omega

theorem skip_qpn_C (PH rest : List Nat) (hPH : ∀ c ∈ PH, c ≠ 34) :
    strfind (34 :: ([99, 104, 97, 105, 110, 95, 104, 97, 115, 104] ++ [34, 58, 34])) (34 :: 44 :: 34 :: 112 :: 114 :: 101 :: 118 :: 105 :: 111 :: 117 :: 115 :: 95 :: 104 :: 97 :: 115 :: 104 :: 34 :: 58 :: 34 :: (PH ++ (34 :: 44 :: rest)))
      = (strfind (34 :: ([99, 104, 97, 105, 110, 95, 104, 97, 115, 104] ++ [34, 58, 34])) (PH ++ (34 :: 44 :: rest))).map (· + 19) := by
  rw [strfind_cons_skip _ _ _ (by simp [startsW, List.cons_append, List.nil_append]),
      strfind_cons_skip _ _ _ (by simp [startsW, List.cons_append, List.nil_append]),
      strfind_cons_skip _ _ _ (by simp [startsW, List.cons_append, List.nil_append]),
      strfind_cons_skip _ _ _ (by simp [startsW, List.cons_append, List.nil_append]),
      strfind_cons_skip _ _ _ (by simp [startsW, List.cons_append, List.nil_append]),
      strfind_cons_skip _ _ _ (by simp [startsW, List.cons_append, List.nil_append]),
      strfind_cons_skip _ _ _ (by simp [startsW, List.cons_append, List.nil_append]),
      strfind_cons_skip _ _ _ (by simp [startsW, List.cons_append, List.nil_append]),
      strfind_cons_skip _ _ _ (by simp [startsW, List.cons_append, List.nil_append]),
      strfind_cons_skip _ _ _ (by simp [startsW, List.cons_append, List.nil_append]),
      strfind_cons_skip _ _ _ (by simp [startsW, List.cons_append, List.nil_append]),
      strfind_cons_skip _ _ _ (by simp [startsW, List.cons_append, List.nil_append]),
      strfind_cons_skip _ _ _ (by simp [startsW, List.cons_append, List.nil_append]),
      strfind_cons_skip _ _ _ (by simp [startsW, List.cons_append, List.nil_append]),
      strfind_cons_skip _ _ _ (by simp [startsW, List.cons_append, List.nil_append]),
      strfind_cons_skip _ _ _ (by simp [startsW, List.cons_append, List.nil_append]),
      strfind_cons_skip _ _ _ (by simp [startsW, List.cons_append, List.nil_append]),
      strfind_cons_skip _ _ _ (by simp [startsW, List.cons_append, List.nil_append]),
      strfind_cons_skip _ _ _ (startsW_quote_key [99, 104, 97, 105, 110, 95, 104, 97, 115, 104] (by decide) PH rest hPH)]
  cases hf : strfind (34 :: ([99, 104, 97, 105, 110, 95, 104, 97, 115, 104] ++ [34, 58, 34])) (PH ++ (34 :: 44 :: rest)) <;> simp [hf] <;> omega

theorem startsW_self_cons (c : Nat) (t Z : List Nat) :
    startsW (c :: t) (c :: (t ++ Z)) = true := by
  simp [startsW, startsW_self_append]

theorem found_P (Z : List Nat) :
    strfind (34 :: ([112, 114, 101, 118, 105, 111, 117, 115, 95, 104, 97, 115, 104] ++ [34, 58, 34])) (34 :: 44 :: 34 :: 112 :: 114 :: 101 :: 118 :: 105 :: 111 :: 117 :: 115 :: 95 :: 104 :: 97 :: 115 :: 104 :: 34 :: 58 :: 34 :: Z) = some 2 := by
  rw [strfind_cons_skip _ _ _ (by simp [startsW, List.cons_append, List.nil_append]),
      strfind_cons_skip _ _ _ (by simp [startsW, List.cons_append, List.nil_append])]
  have h : startsW (34 :: ([112, 114, 101, 118, 105, 111, 117, 115, 95, 104, 97, 115, 104] ++ [34, 58, 34])) (34 :: 112 :: 114 :: 101 :: 118 :: 105 :: 111 :: 117 :: 115 :: 95 :: 104 :: 97 :: 115 :: 104 :: 34 :: 58 :: 34 :: Z) = true := by
    simp [startsW, List.cons_append, List.nil_append]
  have h0 : strfind (34 :: ([112, 114, 101, 118, 105, 111, 117, 115, 95, 104, 97, 115, 104] ++ [34, 58, 34])) (34 :: 112 :: 114 :: 101 :: 118 :: 105 :: 111 :: 117 :: 115 :: 95 :: 104 :: 97 :: 115 :: 104 :: 34 :: 58 :: 34 :: Z) = some 0 := by
    simp only [strfind]
    rw [h]
    rfl
  rw [h0]
  rfl

theorem found_C (Z : List Nat) :
    strfind (34 :: ([99, 104, 97, 105, 110, 95, 104, 97, 115, 104] ++ [34, 58, 34])) (34 :: 44 :: 34 :: 99 :: 104 :: 97 :: 105 :: 110 :: 95 :: 104 :: 97 :: 115 :: 104 :: 34 :: 58 :: 34 :: Z) = some 2 := by
  rw [strfind_cons_skip _ _ _ (by simp [startsW, List.cons_append, List.nil_append]),
      strfind_cons_skip _ _ _ (by simp [startsW, List.cons_append, List.nil_append])]
  have h : startsW (34 :: ([99, 104, 97, 105, 110, 95, 104, 97, 115, 104] ++ [34, 58, 34])) (34 :: 99 :: 104 :: 97 :: 105 :: 110 :: 95 :: 104 :: 97 :: 115 :: 104 :: 34 :: 58 :: 34 :: Z) = true := by
    simp [startsW, List.cons_append, List.nil_append]
  have h0 : strfind (34 :: ([99, 104, 97, 105, 110, 95, 104, 97, 115, 104] ++ [34, 58, 34])) (34 :: 99 :: 104 :: 97 :: 105 :: 110 :: 95 :: 104 :: 97 :: 115 :: 104 :: 34 :: 58 :: 34 :: Z) = some 0 := by
    simp only [strfind]
    rw [h]
    rfl
  rw [h0]
  rfl


theorem decDigitsAux_digits :
    ∀ (fuel n : Nat), ∀ c ∈ decDigitsAux fuel n, 48 ≤ c ∧ c ≤ 57 := by
  intro fuel
  induction fuel with
  | zero => intro n c hc; simp [decDigitsAux] at hc
  | succ f ih =>
      intro n c hc
      simp only [decDigitsAux] at hc
      split at hc
      · simp at hc; omega
      · simp only [List.mem_append, List.mem_singleton] at hc
        rcases hc with hc | hc
        · exact ih _ c hc
        · omega

theorem decDigits_no_quote (n : Nat) : ∀ c ∈ decDigits n, c ≠ 34 := by
  intro c hc
  have := decDigitsAux_digits (n + 1) n c hc
  omega

theorem drop_app (l1 : List Nat) :
    ∀ (l2 : List Nat) (n : Nat), (l1 ++ l2).drop (l1.length + n) = l2.drop n := by
  induction l1 with
  | nil => intro l2 n; simp
  | cons c t ih =>
      intro l2 n
      show ((c :: (t ++ l2)).drop (t.length + 1 + n)) = l2.drop n
      rw [show t.length + 1 + n = (t.length + n) + 1 from by omega, List.drop_succ_cons]
      exact ih l2 n

theorem entryRaw_findP (dev ts msg : List Nat) (u s : Nat) (PH CH : List Nat)
    (hdev : ∀ c ∈ dev, c ≠ 34) (hts : ∀ c ∈ ts, c ≠ 34) :
    strfind needleP (entryRaw dev ts msg u s PH CH)
      = some (dev.length + ts.length + (decDigits u).length + (decDigits s).length + (escapeJson msg).length + 67) := by
  have hform : entryRaw dev ts msg u s PH CH = 123 :: 34 :: 100 :: 101 :: 118 :: 105 :: 99 :: 101 :: 95 :: 105 :: 100 :: 34 :: 58 :: 34 :: (dev ++ (34 :: 44 :: 34 :: 116 :: 105 :: 109 :: 101 :: 115 :: 116 :: 97 :: 109 :: 112 :: 34 :: 58 :: 34 :: (ts ++ (34 :: 44 :: 34 :: 117 :: 115 :: 101 :: 114 :: 95 :: 105 :: 100 :: 34 :: 58 :: (decDigits u ++ (44 :: 34 :: 115 :: 101 :: 118 :: 101 :: 114 :: 105 :: 116 :: 121 :: 34 :: 58 :: (decDigits s ++ (44 :: 34 :: 109 :: 101 :: 115 :: 115 :: 97 :: 103 :: 101 :: 34 :: 58 :: 34 :: (escapeJson msg ++ (34 :: 44 :: 34 :: 112 :: 114 :: 101 :: 118 :: 105 :: 111 :: 117 :: 115 :: 95 :: 104 :: 97 :: 115 :: 104 :: 34 :: 58 :: 34 :: (PH ++ (34 :: 44 :: 34 :: 99 :: 104 :: 97 :: 105 :: 110 :: 95 :: 104 :: 97 :: 115 :: 104 :: 34 :: 58 :: 34 :: (CH ++ [34, 125]))))))))))))) := by
    simp [entryRaw, lit1, lit2, lit3a, lit3b, lit3c, qComma, litEnd, needleP, keyP, needleC, keyC, List.append_assoc, List.cons_append, List.nil_append]
  rw [hform, needleP_shape]
  rw [skip_lit1_P dev _ hdev]
  rw [strfind_qf _ dev hdev _]
  rw [skip_lit2_P ts _ hts]
  rw [strfind_qf _ ts hts _]
  rw [skip_lit3a_P _]
  rw [strfind_qf _ (decDigits u) (decDigits_no_quote u) _]
  rw [skip_lit3b_P _]
  rw [strfind_qf _ (decDigits s) (decDigits_no_quote s) _]
  rw [skip_lit3c_P msg _]
  rw [strfind_esc [112, 114, 101, 118, 105, 111, 117, 115, 95, 104, 97, 115, 104] (by decide) msg _]
  rw [found_P _]
  simp only [Option.map_some', Option.some.injEq]
  omega

theorem entryRaw_findC (dev ts msg : List Nat) (u s : Nat) (PH CH : List Nat)
    (hdev : ∀ c ∈ dev, c ≠ 34) (hts : ∀ c ∈ ts, c ≠ 34) (hPH : ∀ c ∈ PH, c ≠ 34) :
    strfind needleC (entryRaw dev ts msg u s PH CH)
      = some (dev.length + ts.length + (decDigits u).length + (decDigits s).length + (escapeJson msg).length + PH.length + 86) := by
  have hform : entryRaw dev ts msg u s PH CH = 123 :: 34 :: 100 :: 101 :: 118 :: 105 :: 99 :: 101 :: 95 :: 105 :: 100 :: 34 :: 58 :: 34 :: (dev ++ (34 :: 44 :: 34 :: 116 :: 105 :: 109 :: 101 :: 115 :: 116 :: 97 :: 109 :: 112 :: 34 :: 58 :: 34 :: (ts ++ (34 :: 44 :: 34 :: 117 :: 115 :: 101 :: 114 :: 95 :: 105 :: 100 :: 34 :: 58 :: (decDigits u ++ (44 :: 34 :: 115 :: 101 :: 118 :: 101 :: 114 :: 105 :: 116 :: 121 :: 34 :: 58 :: (decDigits s ++ (44 :: 34 :: 109 :: 101 :: 115 :: 115 :: 97 :: 103 :: 101 :: 34 :: 58 :: 34 :: (escapeJson msg ++ (34 :: 44 :: 34 :: 112 :: 114 :: 101 :: 118 :: 105 :: 111 :: 117 :: 115 :: 95 :: 104 :: 97 :: 115 :: 104 :: 34 :: 58 :: 34 :: (PH ++ (34 :: 44 :: 34 :: 99 :: 104 :: 97 :: 105 :: 110 :: 95 :: 104 :: 97 :: 115 :: 104 :: 34 :: 58 :: 34 :: (CH ++ [34, 125]))))))))))))) := by
    simp [entryRaw, lit1, lit2, lit3a, lit3b, lit3c, qComma, litEnd, needleP, keyP, needleC, keyC, List.append_assoc, List.cons_append, List.nil_append]
  rw [hform, needleC_shape]
  rw [skip_lit1_C dev _ hdev]
  rw [strfind_qf _ dev hdev _]
  rw [skip_lit2_C ts _ hts]
  rw [strfind_qf _ ts hts _]
  rw [skip_lit3a_C _]
  rw [strfind_qf _ (decDigits u) (decDigits_no_quote u) _]
  rw [skip_lit3b_C _]
  rw [strfind_qf _ (decDigits s) (decDigits_no_quote s) _]
  rw [skip_lit3c_C msg _]
  rw [strfind_esc [99, 104, 97, 105, 110, 95, 104, 97, 115, 104] (by decide) msg _]
  rw [skip_qpn_C (PH) _ (hPH)]
  rw [strfind_qf _ (PH) (hPH) _]
  rw [found_C _]
  simp only [Option.map_some', Option.some.injEq]
  omega

theorem entryRaw_extraction (dev ts msg : List Nat) (u s : Nat) (PH CH : List Nat)
    (hdev : ∀ c ∈ dev, c ≠ 34) (hts : ∀ c ∈ ts, c ≠ 34)
    (hPH : ∀ c ∈ PH, c ≠ 34) (hCH : ∀ c ∈ CH, c ≠ 34) :
    ∃ p q,
      strfind needleP (entryRaw dev ts msg u s PH CH) = some p ∧
      strfind needleC (entryRaw dev ts msg u s PH CH) = some q ∧
      extractHex (entryRaw dev ts msg u s PH CH) (p + 17) = PH ∧
      extractHex (entryRaw dev ts msg u s PH CH) (q + 14) = CH := by
  have hform2 : entryRaw dev ts msg u s PH CH = [123, 34, 100, 101, 118, 105, 99, 101, 95, 105, 100, 34, 58, 34] ++ (dev ++ ([34, 44, 34, 116, 105, 109, 101, 115, 116, 97, 109, 112, 34, 58, 34] ++ (ts ++ ([34, 44, 34, 117, 115, 101, 114, 95, 105, 100, 34, 58] ++ (decDigits u ++ ([44, 34, 115, 101, 118, 101, 114, 105, 116, 121, 34, 58] ++ (decDigits s ++ ([44, 34, 109, 101, 115, 115, 97, 103, 101, 34, 58, 34] ++ (escapeJson msg ++ ([34, 44, 34, 112, 114, 101, 118, 105, 111, 117, 115, 95, 104, 97, 115, 104, 34, 58, 34] ++ (PH ++ ([34, 44, 34, 99, 104, 97, 105, 110, 95, 104, 97, 115, 104, 34, 58, 34] ++ (CH ++ [34, 125]))))))))))))) := by
    simp [entryRaw, lit1, lit2, lit3a, lit3b, lit3c, qComma, litEnd, needleP, keyP, needleC, keyC, List.append_assoc, List.cons_append, List.nil_append]
  refine ⟨_, _, entryRaw_findP dev ts msg u s PH CH hdev hts,
    entryRaw_findC dev ts msg u s PH CH hdev hts hPH, ?_, ?_⟩
  · have hidx : (dev.length + ts.length + (decDigits u).length + (decDigits s).length + (escapeJson msg).length + 67) + 17 = ([123, 34, 100, 101, 118, 105, 99, 101, 95, 105, 100, 34, 58, 34] : List Nat).length + (dev.length + (([34, 44, 34, 116, 105, 109, 101, 115, 116, 97, 109, 112, 34, 58, 34] : List Nat).length + (ts.length + (([34, 44, 34, 117, 115, 101, 114, 95, 105, 100, 34, 58] : List Nat).length + ((decDigits u).length + (([44, 34, 115, 101, 118, 101, 114, 105, 116, 121, 34, 58] : List Nat).length + ((decDigits s).length + (([44, 34, 109, 101, 115, 115, 97, 103, 101, 34, 58, 34] : List Nat).length + ((escapeJson msg).length + (([34, 44, 34, 112, 114, 101, 118, 105, 111, 117, 115, 95, 104, 97, 115, 104, 34, 58, 34] : List Nat).length + 0)))))))))) := by
      simp only [List.length_cons, List.length_nil]
      omega
    unfold extractHex
    rw [hform2, hidx, drop_app, drop_app, drop_app, drop_app, drop_app, drop_app,
      drop_app, drop_app, drop_app, drop_app, drop_app, List.drop_zero]
    have hf : strfind [34] (PH ++ ([34, 44, 34, 99, 104, 97, 105, 110, 95, 104, 97, 115, 104, 34, 58, 34] ++ (CH ++ [34, 125]))) = some PH.length := by
      rw [strfind_qf [] (PH) (hPH) _]
      have h0 : strfind [34] ([34, 44, 34, 99, 104, 97, 105, 110, 95, 104, 97, 115, 104, 34, 58, 34] ++ (CH ++ [34, 125])) = some 0 := by
        simp [strfind, startsW]
      rw [h0]
      simp
    rw [hf]
    exact List.take_left ..
  · have hidx : (dev.length + ts.length + (decDigits u).length + (decDigits s).length + (escapeJson msg).length + PH.length + 86) + 14 = ([123, 34, 100, 101, 118, 105, 99, 101, 95, 105, 100, 34, 58, 34] : List Nat).length + (dev.length + (([34, 44, 34, 116, 105, 109, 101, 115, 116, 97, 109, 112, 34, 58, 34] : List Nat).length + (ts.length + (([34, 44, 34, 117, 115, 101, 114, 95, 105, 100, 34, 58] : List Nat).length + ((decDigits u).length + (([44, 34, 115, 101, 118, 101, 114, 105, 116, 121, 34, 58] : List Nat).length + ((decDigits s).length + (([44, 34, 109, 101, 115, 115, 97, 103, 101, 34, 58, 34] : List Nat).length + ((escapeJson msg).length + (([34, 44, 34, 112, 114, 101, 118, 105, 111, 117, 115, 95, 104, 97, 115, 104, 34, 58, 34] : List Nat).length + (PH.length + (([34, 44, 34, 99, 104, 97, 105, 110, 95, 104, 97, 115, 104, 34, 58, 34] : List Nat).length + 0)))))))))))) := by
      simp only [List.length_cons, List.length_nil]
      omega
    unfold extractHex
    rw [hform2, hidx, drop_app, drop_app, drop_app, drop_app, drop_app, drop_app,
      drop_app, drop_app, drop_app, drop_app, drop_app, drop_app, drop_app,
      List.drop_zero]
    have hf : strfind [34] (CH ++ [34, 125]) = some CH.length := by
      rw [strfind_qf [] (CH) (hCH) _]
      have h0 : strfind [34] ([34, 125] : List Nat) = some 0 := by
        simp [strfind, startsW]
      rw [h0]
      simp
    rw [hf]
    exact List.take_left ..


theorem entry_extraction (dev ts msg : List Nat) (u s : Nat) (prev cur : List Nat)
    (hdev : ∀ c ∈ dev, c ≠ 34) (hts : ∀ c ∈ ts, c ≠ 34)
    (hprev : isHash prev) (hcur : isHash cur) :
    ∃ p q,
      strfind needleP (entryOf dev ts msg u s prev cur) = some p ∧
      strfind needleC (entryOf dev ts msg u s prev cur) = some q ∧
      extractHex (entryOf dev ts msg u s prev cur) (p + 17) = hashToHex prev ∧
      extractHex (entryOf dev ts msg u s prev cur) (q + 14) = hashToHex cur :=
  entryRaw_extraction dev ts msg u s (hashToHex prev) (hashToHex cur) hdev hts
    (hashToHex_no_quote prev hprev.2) (hashToHex_no_quote cur hcur.2)

/-! ### The verification loop on honest and tampered entries -/

theorem stoiByte_lt (s : List Nat) (pos : Nat) (b : Nat)
    (h : stoiByte s pos = Except.ok b) : b < 256 := by
  unfold stoiByte at h
  cases hs : substr2 s pos with
  | error e => simp [hs, bind, Except.bind] at h
  | ok g =>
      cases hv : stoi16 g with
      | error e => simp [hs, hv, bind, Except.bind] at h
      | ok v =>
          simp only [hs, hv, bind, Except.bind, pure, Except.pure, Except.ok.injEq] at h
          subst h
          have h1 : (0 : Int) ≤ v % 256 := Int.emod_nonneg v (by omega)
          have h2 : v % 256 < 256 := Int.emod_lt_of_pos v (by omega)
          omega

theorem hexToHashAux_isHash :
    ∀ (n : Nat) (s : List Nat) (i : Nat) (l : List Nat),
      hexToHashAux s n i = Except.ok l → l.length = n ∧ ∀ b ∈ l, b < 256 := by
  intro n
  induction n with
  | zero =>
      intro s i l h
      simp only [hexToHashAux, Except.ok.injEq] at h
      subst h
      exact ⟨rfl, by simp⟩
  | succ m ih =>
      intro s i l h
      simp only [hexToHashAux, bind, Except.bind] at h
      cases hb : stoiByte s (2 * i) with
      | error e => simp [hb] at h
      | ok b =>
          rw [hb] at h
          cases hr : hexToHashAux s m (i + 1) with
          | error e => simp [hr] at h
          | ok rest =>
              rw [hr] at h
              simp only [pure, Except.pure, Except.ok.injEq] at h
              subst h
              obtain ⟨hl, hm⟩ := ih s (i + 1) rest hr
              refine ⟨by simp [hl], ?_⟩
              intro x hx
              rcases List.mem_cons.mp hx with rfl | hx
              · exact stoiByte_lt s (2 * i) x hb
              · exact hm x hx

theorem hexToHash_isHash (s h' : List Nat) (h : hexToHash s = Except.ok h') :
    isHash h' :=
  hexToHashAux_isHash 32 s 0 h' h

theorem hashToHex_ne (H1 H2 : List Nat) (h1 : isHash H1) (h2 : isHash H2)
    (hne : H1 ≠ H2) : hashToHex H1 ≠ hashToHex H2 :=
  fun he => hne (hashToHex_inj H1 H2 h1 h2 he)

theorem verifyLoop_cons_mismatch (expected : List Nat) (dev ts msg : List Nat)
    (u s : Nat) (PH CH : List Nat) (REST : List (List Nat))
    (hdev : ∀ c ∈ dev, c ≠ 34) (hts : ∀ c ∈ ts, c ≠ 34)
    (hPH : ∀ c ∈ PH, c ≠ 34) (hCH : ∀ c ∈ CH, c ≠ 34)
    (hne : PH ≠ hashToHex expected) :
    verifyLoop expected (entryRaw dev ts msg u s PH CH :: REST) = Except.ok false := by
  obtain ⟨p, q, hp, hq, hep, heq⟩ :=
    entryRaw_extraction dev ts msg u s PH CH hdev hts hPH hCH
  simp only [verifyLoop, hp, hq, hep]
  simp [hne]

theorem verifyLoop_cons_parse (expected : List Nat) (dev ts msg : List Nat)
    (u s : Nat) (PH CH : List Nat) (REST : List (List Nat))
    (hdev : ∀ c ∈ dev, c ≠ 34) (hts : ∀ c ∈ ts, c ≠ 34)
    (hPH : ∀ c ∈ PH, c ≠ 34) (hCH : ∀ c ∈ CH, c ≠ 34)
    (heq : PH = hashToHex expected) (h' : List Nat)
    (hparse : hexToHash CH = Except.ok h') :
    verifyLoop expected (entryRaw dev ts msg u s PH CH :: REST)
      = verifyLoop h' REST := by
  subst heq
  obtain ⟨p, q, hp, hq, hep, hec⟩ :=
    entryRaw_extraction dev ts msg u s (hashToHex expected) CH hdev hts hPH hCH
  simp only [verifyLoop, hp, hq, hep, hec, hparse]
  rw [if_neg (fun hx => hx rfl)]
  rfl

theorem verifyLoop_cons_honest (expected : List Nat) (dev ts msg : List Nat)
    (u s : Nat) (cur : List Nat) (REST : List (List Nat))
    (hdev : ∀ c ∈ dev, c ≠ 34) (hts : ∀ c ∈ ts, c ≠ 34)
    (hexp : isHash expected) (hcur : isHash cur) :
    verifyLoop expected (entryOf dev ts msg u s expected cur :: REST)
      = verifyLoop cur REST :=
  verifyLoop_cons_parse expected dev ts msg u s
    (hashToHex expected) (hashToHex cur) REST hdev hts
    (hashToHex_no_quote expected hexp.2) (hashToHex_no_quote cur hcur.2)
    rfl cur (hexToHash_hashToHex cur hcur)

theorem chainRun_cons (st : ChainSt) (inp : LogInput) (rest : List LogInput) :
    chainRun st (inp :: rest)
      = ((chainRun (logOp st inp).1 rest).1,
         (logOp st inp).2 :: (chainRun (logOp st inp).1 rest).2) := rfl

theorem logEntryB_spec (dev ts msg : List Nat) (u s : Nat) (prev : List Nat) :
    logEntryB dev ts msg u s prev
      = (entryOf dev ts msg u s prev (sha256Bytes (payloadB dev ts msg u s prev)),
         sha256Bytes (payloadB dev ts msg u s prev)) := rfl

theorem logOp_raw (st : ChainSt) (inp : LogInput) :
    logOp st inp
      = (⟨st.deviceId, (logEntryB st.deviceId inp.ts inp.msg inp.uid inp.sev st.prevHash).2,
          st.seq + 1⟩,
         (logEntryB st.deviceId inp.ts inp.msg inp.uid inp.sev st.prevHash).1) := rfl

theorem logOp_spec (st : ChainSt) (inp : LogInput) :
    logOp st inp
      = (⟨st.deviceId,
          sha256Bytes (payloadB st.deviceId inp.ts inp.msg inp.uid inp.sev st.prevHash),
          st.seq + 1⟩,
         entryOf st.deviceId inp.ts inp.msg inp.uid inp.sev st.prevHash
           (sha256Bytes (payloadB st.deviceId inp.ts inp.msg inp.uid inp.sev st.prevHash))) := by
  simp only [logOp_raw, logEntryB_spec]

theorem chainRun_append (I1 : List LogInput) :
    ∀ (st : ChainSt) (I2 : List LogInput),
      chainRun st (I1 ++ I2)
        = ((chainRun (chainRun st I1).1 I2).1,
           (chainRun st I1).2 ++ (chainRun (chainRun st I1).1 I2).2) := by
  induction I1 with
  | nil => intro st I2; simp [chainRun]
  | cons inp rest ih =>
      intro st I2
      simp only [List.cons_append, chainRun_cons, ih, List.cons_append]

theorem verifyLoop_walk (inputs : List LogInput) :
    ∀ (st : ChainSt) (tail : List (List Nat)),
      (∀ c ∈ st.deviceId, c ≠ 34) →
      (∀ inp ∈ inputs, ∀ c ∈ inp.ts, c ≠ 34) →
      isHash st.prevHash →
      verifyLoop st.prevHash ((chainRun st inputs).2 ++ tail)
        = verifyLoop (chainRun st inputs).1.prevHash tail := by
  induction inputs with
  | nil => intro st tail _ _ _; rfl
  | cons inp rest ih =>
      intro st tail hdev hts hst
      simp only [chainRun_cons, logOp_spec, List.cons_append]
      have hG : isHash (sha256Bytes
          (payloadB st.deviceId inp.ts inp.msg inp.uid inp.sev st.prevHash)) :=
        sha256_isHash _
      revert hG
      generalize sha256Bytes (payloadB st.deviceId inp.ts inp.msg inp.uid inp.sev st.prevHash)
        = G
      intro hG
      rw [verifyLoop_cons_honest st.prevHash st.deviceId inp.ts inp.msg inp.uid inp.sev G _
        hdev (hts inp (List.mem_cons_self inp rest)) hst hG]
      exact ih ⟨st.deviceId, G, st.seq + 1⟩ tail hdev
        (fun i hi => hts i (List.mem_cons_of_mem inp hi)) hG

theorem verifyLoop_chainRun (inputs : List LogInput) (st : ChainSt)
    (hdev : ∀ c ∈ st.deviceId, c ≠ 34)
    (hts : ∀ inp ∈ inputs, ∀ c ∈ inp.ts, c ≠ 34)
    (hst : isHash st.prevHash) :
    verifyLoop st.prevHash (chainRun st inputs).2 = Except.ok true := by
  have h := verifyLoop_walk inputs st [] hdev hts hst
  simpa using h

theorem eraseIdx_append {α : Type} (A : List α) (x : α) (B : List α) :
    (A ++ x :: B).eraseIdx A.length = A ++ B := by
  induction A with
  | nil => rfl
  | cons a t ih => simp [List.eraseIdx, ih]

theorem entryOf_raw (dev ts msg : List Nat) (u s : Nat) (prev cur : List Nat) :
    entryOf dev ts msg u s prev cur
      = entryRaw dev ts msg u s (hashToHex prev) (hashToHex cur) := rfl

theorem chainRun_len (I : List LogInput) :
    ∀ st : ChainSt, (chainRun st I).2.length = I.length := by
  induction I with
  | nil => intro st; rfl
  | cons inp rest ih =>
      intro st
      simp only [chainRun_cons, List.length_cons, ih]

theorem mkChain_prevHash (dev : List Nat) :
    (mkChain dev).prevHash = sha256Bytes (asciiB "DTS_INIT") := rfl

theorem mkChain_isHash (dev : List Nat) : isHash (mkChain dev).prevHash := by
  rw [mkChain_prevHash]; exact sha256_isHash _

theorem chainRun_prevHash_isHash (I : List LogInput) :
    ∀ st : ChainSt, isHash st.prevHash → isHash (chainRun st I).1.prevHash := by
  induction I with
  | nil => intro st h; exact h
  | cons inp rest ih =>
      intro st _
      simp only [chainRun_cons, logOp_spec]
      have hG : isHash (sha256Bytes
          (payloadB st.deviceId inp.ts inp.msg inp.uid inp.sev st.prevHash)) :=
        sha256_isHash _
      revert hG
      generalize sha256Bytes (payloadB st.deviceId inp.ts inp.msg inp.uid inp.sev st.prevHash)
        = G
      intro hG
      exact ih ⟨st.deviceId, G, st.seq + 1⟩ hG

theorem isEmpty_append_cons (A : List (List Nat)) (x : List Nat)
    (B : List (List Nat)) : (A ++ x :: B).isEmpty = false := by
  cases A <;> rfl

theorem verifyChain_append_cons (A : List (List Nat)) (x : List Nat)
    (B : List (List Nat)) :
    verifyChain (A ++ x :: B)
      = verifyLoop (sha256Bytes (asciiB "DTS_INIT")) (A ++ x :: B) := by
  unfold verifyChain
  rw [isEmpty_append_cons, if_neg Bool.false_ne_true]

theorem verify_export_mismatch (dev : List Nat) (I1 : List LogInput)
    (d2 t2 m2 : List Nat) (u2 s2 : Nat) (PH CH : List Nat)
    (TAIL : List (List Nat))
    (hdev : ∀ c ∈ dev, c ≠ 34) (hts1 : ∀ inp ∈ I1, ∀ c ∈ inp.ts, c ≠ 34)
    (hd2 : ∀ c ∈ d2, c ≠ 34) (ht2 : ∀ c ∈ t2, c ≠ 34)
    (hPH : ∀ c ∈ PH, c ≠ 34) (hCH : ∀ c ∈ CH, c ≠ 34)
    (hne : PH ≠ hashToHex (chainRun (mkChain dev) I1).1.prevHash) :
    verifyChain ((chainRun (mkChain dev) I1).2
        ++ entryRaw d2 t2 m2 u2 s2 PH CH :: TAIL) = Except.ok false := by
  have hw := verifyLoop_walk I1 (mkChain dev)
    (entryRaw d2 t2 m2 u2 s2 PH CH :: TAIL) hdev hts1 (mkChain_isHash dev)
  have hm := verifyLoop_cons_mismatch (chainRun (mkChain dev) I1).1.prevHash
    d2 t2 m2 u2 s2 PH CH TAIL hd2 ht2 hPH hCH hne
  rw [verifyChain_append_cons]
  have hg : sha256Bytes (asciiB "DTS_INIT") = (mkChain dev).prevHash := rfl
  rw [hg, hw, hm]

theorem verify_export_parse_mismatch (dev : List Nat) (I1 : List LogInput)
    (d2 t2 m2 : List Nat) (u2 s2 : Nat) (CH h' : List Nat)
    (d3 t3 m3 : List Nat) (u3 s3 : Nat) (PH3 CH3 : List Nat)
    (TAIL : List (List Nat))
    (hdev : ∀ c ∈ dev, c ≠ 34) (hts1 : ∀ inp ∈ I1, ∀ c ∈ inp.ts, c ≠ 34)
    (hd2 : ∀ c ∈ d2, c ≠ 34) (ht2 : ∀ c ∈ t2, c ≠ 34)
    (hCH : ∀ c ∈ CH, c ≠ 34)
    (hd3 : ∀ c ∈ d3, c ≠ 34) (ht3 : ∀ c ∈ t3, c ≠ 34)
    (hPH3 : ∀ c ∈ PH3, c ≠ 34) (hCH3 : ∀ c ∈ CH3, c ≠ 34)
    (hparse : hexToHash CH = Except.ok h')
    (hne : PH3 ≠ hashToHex h') :
    verifyChain ((chainRun (mkChain dev) I1).2
        ++ entryRaw d2 t2 m2 u2 s2
            (hashToHex (chainRun (mkChain dev) I1).1.prevHash) CH
        :: entryRaw d3 t3 m3 u3 s3 PH3 CH3 :: TAIL) = Except.ok false := by
  have hst1 : isHash (chainRun (mkChain dev) I1).1.prevHash :=
    chainRun_prevHash_isHash I1 (mkChain dev) (mkChain_isHash dev)
  have hw := verifyLoop_walk I1 (mkChain dev)
    (entryRaw d2 t2 m2 u2 s2
        (hashToHex (chainRun (mkChain dev) I1).1.prevHash) CH
      :: entryRaw d3 t3 m3 u3 s3 PH3 CH3 :: TAIL) hdev hts1 (mkChain_isHash dev)
  have hp := verifyLoop_cons_parse (chainRun (mkChain dev) I1).1.prevHash
    d2 t2 m2 u2 s2 (hashToHex (chainRun (mkChain dev) I1).1.prevHash) CH
    (entryRaw d3 t3 m3 u3 s3 PH3 CH3 :: TAIL) hd2 ht2
    (hashToHex_no_quote _ hst1.2) hCH rfl h' hparse
  have hm := verifyLoop_cons_mismatch h' d3 t3 m3 u3 s3 PH3 CH3 TAIL
    hd3 ht3 hPH3 hCH3 hne
  rw [verifyChain_append_cons]
  have hg : sha256Bytes (asciiB "DTS_INIT") = (mkChain dev).prevHash := rfl
  rw [hg, hw, hp, hm]

/-! ### Single-character alterations of a digest text -/

theorem set_preserves_no_quote (l : List Nat) (j x : Nat)
    (hl : ∀ c ∈ l, c ≠ 34) (hx : x ≠ 34) : ∀ c ∈ l.set j x, c ≠ 34 := by
  intro c hc
  rcases List.mem_or_eq_of_mem_set hc with h | rfl
  · exact hl c h
  · exact hx

theorem set_ne_of_getD_ne :
    ∀ (l : List Nat) (j x : Nat), j < l.length → l.getD j 0 ≠ x → l.set j x ≠ l := by
  intro l
  induction l with
  | nil => intro j x hj; simp at hj
  | cons a t ih =>
      intro j x hj hne
      cases j with
      | zero =>
          rw [List.getD_cons_zero] at hne
          intro h
          rw [List.set] at h
          injection h with h1 h2
          exact hne h1.symm
      | succ n =>
          rw [List.getD_cons_succ] at hne
          intro h
          rw [List.set] at h
          injection h with h1 h2
          exact ih n x (by simpa using hj) hne h2

/-! ### The escaped message is a valid embedded string literal -/

theorem hexDigitCh_ne_quote (n : Nat) : hexDigitCh n ≠ 34 := by
  unfold hexDigitCh; split <;> omega

theorem hexDigit_isHexDigitEsc (n : Nat) (h : n < 16) :
    isHexDigitEsc (hexDigitCh n) = true := by
  interval_cases n <;> decide

theorem jsonLexOK_escUnit (c : Nat) (rest : List Nat) :
    jsonLexOK (escUnit c ++ rest) = jsonLexOK rest := by
  by_cases h1 : c = 34
  · subst h1; rfl
  by_cases h2 : c = 92
  · subst h2; rfl
  by_cases h3 : c = 8
  · subst h3; rfl
  by_cases h4 : c = 12
  · subst h4; rfl
  by_cases h5 : c = 10
  · subst h5; rfl
  by_cases h6 : c = 13
  · subst h6; rfl
  by_cases h7 : c = 9
  · subst h7; rfl
  by_cases h8 : c < 32
  · have hd1 : isHexDigitEsc (hexDigitCh (c / 16)) = true :=
      hexDigit_isHexDigitEsc _ (by omega)
    have hd2 : isHexDigitEsc (hexDigitCh (c % 16)) = true :=
      hexDigit_isHexDigitEsc _ (Nat.mod_lt _ (by omega))
    have he : escUnit c ++ rest
        = 92 :: 117 :: 48 :: 48 :: hexDigitCh (c / 16)
            :: hexDigitCh (c % 16) :: rest := by
      simp [escUnit, h1, h2, h3, h4, h5, h6, h7, h8]
    rw [he]
    have hr : jsonLexOK (92 :: 117 :: 48 :: 48 :: hexDigitCh (c / 16)
          :: hexDigitCh (c % 16) :: rest)
        = (isHexDigitEsc 48 && (isHexDigitEsc 48
            && (isHexDigitEsc (hexDigitCh (c / 16))
            && (isHexDigitEsc (hexDigitCh (c % 16)) && jsonLexOK rest)))) := rfl
    rw [hr, hd1, hd2]
    simp [isHexDigitEsc]
  · have h32 : 32 ≤ c := by omega
    have he : escUnit c ++ rest = c :: rest := by
      simp [escUnit, h1, h2, h3, h4, h5, h6, h7, h8]
    rw [he]
    show jsonScan 0 (c :: rest) = jsonScan 0 rest
    simp only [jsonScan]
    rw [if_neg h2]
    simp [h32, h1]

theorem escapeJson_cons (c : Nat) (t : List Nat) :
    escapeJson (c :: t) = escUnit c ++ escapeJson t := by
  simp [escapeJson]

theorem escapeJson_lexOK (msg : List Nat) : jsonLexOK (escapeJson msg) = true := by
  induction msg with
  | nil => rfl
  | cons c t ih => rw [escapeJson_cons, jsonLexOK_escUnit]; exact ih

/-! ### Escaping strictly lengthens messages with special characters -/

theorem escUnit_length_pos (c : Nat) : 1 ≤ (escUnit c).length := by
  unfold escUnit
  (repeat' split) <;> simp

theorem escUnit_special_length (c : Nat) (h : c = 34 ∨ c = 92 ∨ c < 32) :
    2 ≤ (escUnit c).length := by
  rcases h with rfl | rfl | hlt
  · simp [escUnit]
  · simp [escUnit]
  · unfold escUnit
    (repeat' split) <;> first | simp | omega

theorem escapeJson_length_ge (msg : List Nat) :
    msg.length ≤ (escapeJson msg).length := by
  induction msg with
  | nil => simp [escapeJson]
  | cons c t ih =>
      rw [escapeJson_cons, List.length_append, List.length_cons]
      have := escUnit_length_pos c
      omega

theorem escapeJson_length_gt (msg : List Nat)
    (h : ∃ c ∈ msg, c = 34 ∨ c = 92 ∨ c < 32) :
    msg.length < (escapeJson msg).length := by
  induction msg with
  | nil => simp at h
  | cons c t ih =>
      rw [escapeJson_cons, List.length_append, List.length_cons]
      rcases h with ⟨d, hd, hspec⟩
      rcases List.mem_cons.mp hd with rfl | hdt
      · have h2 := escUnit_special_length d hspec
        have h3 := escapeJson_length_ge t
        omega
      · have h2 := ih ⟨d, hdt, hspec⟩
        have h3 := escUnit_length_pos c
        omega

/-! ### Every quote in an escaped message is preceded by a backslash -/

theorem escQuote_aux_cons (b : Nat) (E : List Nat) (hb : b ≠ 34)
    (hP : ∀ X Y : List Nat, ∀ a : Nat, E = X ++ a :: 34 :: Y → a = 92)
    (hQ : ∀ Y : List Nat, E ≠ 34 :: Y) :
    (∀ X Y : List Nat, ∀ a : Nat, b :: E = X ++ a :: 34 :: Y → a = 92)
  ∧ (∀ Y : List Nat, b :: E ≠ 34 :: Y) := by
  constructor
  · intro X Y a h
    cases X with
    | nil =>
        simp only [List.nil_append] at h
        injection h with h1 h2
        exact absurd h2 (hQ Y)
    | cons x X2 =>
        simp only [List.cons_append] at h
        injection h with h1 h2
        exact hP X2 Y a h2
  · intro Y h
    injection h with h1 h2
    exact hb h1

theorem escQuote_aux_esc (z : Nat) (E : List Nat)
    (hP : ∀ X Y : List Nat, ∀ a : Nat, E = X ++ a :: 34 :: Y → a = 92)
    (hQ : ∀ Y : List Nat, E ≠ 34 :: Y) :
    (∀ X Y : List Nat, ∀ a : Nat, 92 :: z :: E = X ++ a :: 34 :: Y → a = 92)
  ∧ (∀ Y : List Nat, 92 :: z :: E ≠ 34 :: Y) := by
  constructor
  · intro X Y a h
    cases X with
    | nil =>
        simp only [List.nil_append] at h
        injection h with h1 h2
        exact h1.symm
    | cons x X2 =>
        simp only [List.cons_append] at h
        injection h with h1 h2
        cases X2 with
        | nil =>
            simp only [List.nil_append] at h2
            injection h2 with h3 h4
            exact absurd h4 (hQ Y)
        | cons x2 X3 =>
            simp only [List.cons_append] at h2
            injection h2 with h3 h4
            exact hP X3 Y a h4
  · intro Y h
    injection h with h1 h2
    exact absurd h1 (by decide)

theorem escapeJson_quote_escaped (msg : List Nat) :
    (∀ X Y : List Nat, ∀ a : Nat, escapeJson msg = X ++ a :: 34 :: Y → a = 92)
  ∧ (∀ Y : List Nat, escapeJson msg ≠ 34 :: Y) := by
  induction msg with
  | nil =>
      constructor
      · intro X Y a h
        have := congrArg List.length h
        simp [escapeJson] at this
        omega
      · intro Y h
        have := congrArg List.length h
        simp [escapeJson] at this
  | cons c t ih =>
      by_cases h1 : c = 34
      · subst h1
        have he : escapeJson (34 :: t) = 92 :: 34 :: escapeJson t := by
          rw [escapeJson_cons]; simp [escUnit]
        rw [he]
        exact escQuote_aux_esc 34 (escapeJson t) ih.1 ih.2
      by_cases h2 : c = 92
      · subst h2
        have he : escapeJson (92 :: t) = 92 :: 92 :: escapeJson t := by
          rw [escapeJson_cons]; simp [escUnit]
        rw [he]
        exact escQuote_aux_esc 92 (escapeJson t) ih.1 ih.2
      by_cases h3 : c = 8
      · subst h3
        have he : escapeJson (8 :: t) = 92 :: 98 :: escapeJson t := by
          rw [escapeJson_cons]; simp [escUnit]
        rw [he]
        exact escQuote_aux_esc 98 (escapeJson t) ih.1 ih.2
      by_cases h4 : c = 12
      · subst h4
        have he : escapeJson (12 :: t) = 92 :: 102 :: escapeJson t := by
          rw [escapeJson_cons]; simp [escUnit]
        rw [he]
        exact escQuote_aux_esc 102 (escapeJson t) ih.1 ih.2
      by_cases h5 : c = 10
      · subst h5
        have he : escapeJson (10 :: t) = 92 :: 110 :: escapeJson t := by
          rw [escapeJson_cons]; simp [escUnit]
        rw [he]
        exact escQuote_aux_esc 110 (escapeJson t) ih.1 ih.2
      by_cases h6 : c = 13
      · subst h6
        have he : escapeJson (13 :: t) = 92 :: 114 :: escapeJson t := by
          rw [escapeJson_cons]; simp [escUnit]
        rw [he]
        exact escQuote_aux_esc 114 (escapeJson t) ih.1 ih.2
      by_cases h7 : c = 9
      · subst h7
        have he : escapeJson (9 :: t) = 92 :: 116 :: escapeJson t := by
          rw [escapeJson_cons]; simp [escUnit]
        rw [he]
        exact escQuote_aux_esc 116 (escapeJson t) ih.1 ih.2
      by_cases h8 : c < 32
      · have he : escapeJson (c :: t)
            = 92 :: 117 :: 48 :: 48 :: hexDigitCh (c / 16)
                :: hexDigitCh (c % 16) :: escapeJson t := by
          rw [escapeJson_cons]
          simp [escUnit, h1, h2, h3, h4, h5, h6, h7, h8]
        rw [he]
        have s1 := escQuote_aux_cons (hexDigitCh (c % 16)) (escapeJson t)
          (hexDigitCh_ne_quote _) ih.1 ih.2
        have s2 := escQuote_aux_cons (hexDigitCh (c / 16)) _
          (hexDigitCh_ne_quote _) s1.1 s1.2
        have s3 := escQuote_aux_cons 48 _ (by decide) s2.1 s2.2
        have s4 := escQuote_aux_cons 48 _ (by decide) s3.1 s3.2
        exact escQuote_aux_esc 117 _ s4.1 s4.2
      · have he : escapeJson (c :: t) = c :: escapeJson t := by
          rw [escapeJson_cons]
          simp [escUnit, h1, h2, h3, h4, h5, h6, h7, h8]
        rw [he]
        exact escQuote_aux_cons c (escapeJson t) h1 ih.1 ih.2

/-! ## The claims about verification of exports -/

theorem verifyChain_cons (e : List Nat) (rest : List (List Nat)) :
    verifyChain (e :: rest)
      = verifyLoop (sha256Bytes (asciiB "DTS_INIT")) (e :: rest) := rfl

/-- C1 (amended).  `verify_chain` accepts any untouched, in-order export
of a single instance — including the empty export — provided the
device id and the timestamps contain no quote character.  Without that
proviso the claim fails: an adversarial device id redirects the
verifier's substring search (see the counterexample). -/
theorem claimC1_export_verifies (dev : List Nat) (inputs : List LogInput)
    (hdev : ∀ c ∈ dev, c ≠ 34)
    (hts : ∀ inp ∈ inputs, ∀ c ∈ inp.ts, c ≠ 34) :
    verifyChain (chainRun (mkChain dev) inputs).2 = Except.ok true := by
  have h := verifyLoop_chainRun inputs (mkChain dev) hdev hts (mkChain_isHash dev)
  rw [mkChain_prevHash] at h
  cases hE : (chainRun (mkChain dev) inputs).2 with
  | nil => rfl
  | cons e rest =>
      rw [hE] at h
      rw [verifyChain_cons]
      exact h

/-- C1 (counterexample).  A single `AuditChain` instance whose device id
embeds `","previous_hash":"0` produces an untouched, in-order one-entry
export that `verify_chain` rejects: the raw device id redirects the
search for the `previous_hash` key, so the extracted text is `0` instead
of the genuine digest rendering. -/
theorem claimC1_injection_counterexample :
    verifyChain (chainRun (mkChain (asciiB "A\",\"previous_hash\":\"0"))
      [⟨asciiB "T", asciiB "boot", 0, 1⟩]).2 = Except.ok false := by
  decide

theorem claimC1_witness :
    verifyChain (chainRun (mkChain (asciiB "DEV-1"))
      [⟨asciiB "2025-01-01T00:00:00.000Z", asciiB "boot", 0, 1⟩]).2
      = Except.ok true :=
  claimC1_export_verifies _ _ (by decide) (by decide)

/-- C4.  `verify_chain` does not treat malformed digest fields as a
verification failure: a `chain_hash` field of 64 characters `0z…`
parses silently (each byte group `"0z"` is defaulted by `std::stoi` to
`0`), so the chain verifies `true`; a field `zz…` makes `std::stoi`
throw `invalid_argument`, and a field shorter than a full byte group
makes `substr` throw `out_of_range` — in both cases the exception
escapes `verify_chain` instead of a `false` return. -/
theorem claimC4_malformed_hex_mishandled :
    stoi16 (asciiB "0z") = Except.ok 0
  ∧ verifyChain [entryRaw (asciiB "D") (asciiB "T") (asciiB "m") 0 1
      (hashToHex (sha256Bytes (asciiB "DTS_INIT")))
      ((List.replicate 32 [48, 122]).flatten)] = Except.ok true
  ∧ verifyChain [entryRaw (asciiB "D") (asciiB "T") (asciiB "m") 0 1
      (hashToHex (sha256Bytes (asciiB "DTS_INIT")))
      ((List.replicate 32 [122, 122]).flatten)] = Except.error ()
  ∧ verifyChain [entryRaw (asciiB "D") (asciiB "T") (asciiB "m") 0 1
      (hashToHex (sha256Bytes (asciiB "DTS_INIT"))) [48, 48]]
      = Except.error () := by
  refine ⟨by decide, by decide, by decide, by decide⟩

/-- C5.  Every append hashes the payload
`device | timestamp | user | severity | raw message | hex(previous)`
— in exactly that order, with separator `'|'` — and serializes an entry
embedding the previous digest and the new digest as lowercase
64-character hexadecimal in the `previous_hash` and `chain_hash`
fields. -/
theorem claimC5_payload_and_rendering (dev ts msg : List Nat) (u s : Nat)
    (prev : List Nat) (hprev : isHash prev) :
    (logEntryB dev ts msg u s prev).2
      = sha256Bytes (dev ++ [124] ++ ts ++ [124] ++ decDigits u ++ [124]
          ++ decDigits s ++ [124] ++ msg ++ [124] ++ hashToHex prev)
  ∧ (logEntryB dev ts msg u s prev).1
      = entryRaw dev ts msg u s (hashToHex prev)
          (hashToHex (logEntryB dev ts msg u s prev).2)
  ∧ (hashToHex prev).length = 64
  ∧ (∀ c ∈ hashToHex prev, isHexLowerCh c = true)
  ∧ (hashToHex (logEntryB dev ts msg u s prev).2).length = 64
  ∧ (∀ c ∈ hashToHex (logEntryB dev ts msg u s prev).2,
      isHexLowerCh c = true) := by
  have hsnd : (logEntryB dev ts msg u s prev).2
      = sha256Bytes (payloadB dev ts msg u s prev) := by
    rw [logEntryB_spec]
  have hfst : (logEntryB dev ts msg u s prev).1
      = entryOf dev ts msg u s prev (sha256Bytes (payloadB dev ts msg u s prev)) := by
    rw [logEntryB_spec]
  have hpay : payloadB dev ts msg u s prev
      = dev ++ [124] ++ ts ++ [124] ++ decDigits u ++ [124]
          ++ decDigits s ++ [124] ++ msg ++ [124] ++ hashToHex prev := rfl
  refine ⟨by rw [hsnd, hpay], by rw [hfst, entryOf_raw, hsnd], ?_, ?_, ?_, ?_⟩
  · rw [hashToHex_length, hprev.1]
  · exact hashToHex_chars prev hprev.2
  · rw [hsnd, hashToHex_length,
      (sha256_isHash (payloadB dev ts msg u s prev)).1]
  · rw [hsnd]
    exact hashToHex_chars _ (sha256_isHash (payloadB dev ts msg u s prev)).2

theorem claimC5_witness :
    isHash (List.replicate 32 0)
  ∧ (hashToHex (List.replicate 32 0)).length = 64 :=
  ⟨by decide,
   (claimC5_payload_and_rendering [] [] [] 0 0 (List.replicate 32 0)
     (by decide)).2.2.1⟩

/-- C8.  Appending is total for any message bytes and any codes: the
state update always succeeds, bumps the sequence number by exactly one,
replaces the rolling digest with the digest of the new payload (which
changes it whenever that digest differs from the old one), leaves the
device id unchanged, and the escaped message embedded in the serialized
entry parses as a valid embedded string literal. -/
theorem claimC8_append_total (st : ChainSt) (inp : LogInput)
    (hch : sha256Bytes (payloadB st.deviceId inp.ts inp.msg inp.uid inp.sev st.prevHash)
        ≠ st.prevHash) :
    (logOp st inp).1.seq = st.seq + 1
  ∧ (logOp st inp).1.prevHash
      = sha256Bytes (payloadB st.deviceId inp.ts inp.msg inp.uid inp.sev st.prevHash)
  ∧ (logOp st inp).1.prevHash ≠ st.prevHash
  ∧ (logOp st inp).1.deviceId = st.deviceId
  ∧ jsonLexOK (escapeJson inp.msg) = true := by
  have h2 : (logOp st inp).1.prevHash
      = sha256Bytes (payloadB st.deviceId inp.ts inp.msg inp.uid inp.sev st.prevHash) := by
    rw [logOp_spec]
  refine ⟨by rw [logOp_spec], h2, ?_, by rw [logOp_spec], escapeJson_lexOK inp.msg⟩
  rw [h2]; exact hch

theorem claimC8_witness :
    (logOp (mkChain (asciiB "D")) ⟨asciiB "T", asciiB "m", 0, 1⟩).1.seq
        = (mkChain (asciiB "D")).seq + 1
  ∧ (logOp (mkChain (asciiB "D")) ⟨asciiB "T", asciiB "m", 0, 1⟩).1.prevHash
        ≠ (mkChain (asciiB "D")).prevHash := by
  have T := claimC8_append_total (mkChain (asciiB "D"))
    ⟨asciiB "T", asciiB "m", 0, 1⟩ (by decide)
  exact ⟨T.1, T.2.2.1⟩

/-- C9.  The digest is computed over the payload with the raw,
unescaped message, while the serialized entry embeds the escaped form;
for any message containing a quote, backslash, or control character the
two forms differ, so hashing the payload rebuilt from the serialized
message field (without reversing the escaping) cannot reproduce the
entry digest's preimage. -/
theorem claimC9_digest_over_raw_message (dev ts msg : List Nat) (u s : Nat)
    (prev : List Nat) (hspecial : ∃ c ∈ msg, c = 34 ∨ c = 92 ∨ c < 32) :
    payloadB dev ts msg u s prev
      = dev ++ [124] ++ ts ++ [124] ++ decDigits u ++ [124] ++ decDigits s
          ++ [124] ++ msg ++ [124] ++ hashToHex prev
  ∧ escapeJson msg ≠ msg
  ∧ payloadB dev ts msg u s prev ≠ payloadB dev ts (escapeJson msg) u s prev := by
  have hgt := escapeJson_length_gt msg hspecial
  refine ⟨rfl, ?_, ?_⟩
  · intro h
    have := congrArg List.length h
    omega
  · intro h
    have := congrArg List.length h
    simp only [payloadB, List.length_append] at this
    omega

theorem claimC9_witness : escapeJson (asciiB "a\"b") ≠ asciiB "a\"b" :=
  (claimC9_digest_over_raw_message [] [] (asciiB "a\"b") 0 0 []
    (by decide)).2.1

/-- C10.  The escaped message never contains a bare quote: every quote
in `escape_json`'s output is immediately preceded by a backslash, and
the output never begins with a quote.  Consequently in every honestly
produced entry the verifier's searches for `"previous_hash":"` and
`"chain_hash":"` land on the genuine digest fields and extract exactly
their hex renderings, whatever the message content. -/
theorem claimC10_needles_locate_fields (msg : List Nat) :
    (∀ X Y : List Nat, ∀ a : Nat, escapeJson msg = X ++ a :: 34 :: Y → a = 92)
  ∧ (∀ Y : List Nat, escapeJson msg ≠ 34 :: Y)
  ∧ (∀ dev ts prev cur : List Nat, ∀ u s : Nat,
      (∀ c ∈ dev, c ≠ 34) → (∀ c ∈ ts, c ≠ 34) → isHash prev → isHash cur →
      ∃ p q,
        strfind needleP (entryOf dev ts msg u s prev cur) = some p ∧
        strfind needleC (entryOf dev ts msg u s prev cur) = some q ∧
        extractHex (entryOf dev ts msg u s prev cur) (p + 17) = hashToHex prev ∧
        extractHex (entryOf dev ts msg u s prev cur) (q + 14) = hashToHex cur) := by
  refine ⟨(escapeJson_quote_escaped msg).1, (escapeJson_quote_escaped msg).2, ?_⟩
  intro dev ts prev cur u s hdev hts hprev hcur
  exact entry_extraction dev ts msg u s prev cur hdev hts hprev hcur

theorem claimC10_witness :
    (∀ Y : List Nat, escapeJson (asciiB "a\"b") ≠ 34 :: Y)
  ∧ ∃ p q,
      strfind needleP (entryOf (asciiB "D") (asciiB "T") (asciiB "a\"b") 0 1
        (List.replicate 32 0) (List.replicate 32 17)) = some p ∧
      strfind needleC (entryOf (asciiB "D") (asciiB "T") (asciiB "a\"b") 0 1
        (List.replicate 32 0) (List.replicate 32 17)) = some q ∧
      extractHex (entryOf (asciiB "D") (asciiB "T") (asciiB "a\"b") 0 1
        (List.replicate 32 0) (List.replicate 32 17)) (p + 17)
        = hashToHex (List.replicate 32 0) ∧
      extractHex (entryOf (asciiB "D") (asciiB "T") (asciiB "a\"b") 0 1
        (List.replicate 32 0) (List.replicate 32 17)) (q + 14)
        = hashToHex (List.replicate 32 17) := by
  have T := claimC10_needles_locate_fields (asciiB "a\"b")
  exact ⟨T.2.1,
    T.2.2 (asciiB "D") (asciiB "T") (List.replicate 32 0)
      (List.replicate 32 17) 0 1 (by decide) (by decide) (by decide)
      (by decide)⟩

/-- C2 (counterexample).  The last entry's `chain_hash` text is never
checked: altering one character of the chain-hash rendering in the only
entry of an honest one-entry export (its first hex character `7`
becomes `0`) yields an entry different from the honest one that
`verify_chain` still accepts. -/
theorem claimC2_last_entry_counterexample :
    (chainRun (mkChain (asciiB "D")) [⟨asciiB "T", asciiB "m", 0, 1⟩]).2
      = [entryOf (asciiB "D") (asciiB "T") (asciiB "m") 0 1
          (sha256Bytes (asciiB "DTS_INIT"))
          (sha256Bytes (payloadB (asciiB "D") (asciiB "T") (asciiB "m") 0 1
            (sha256Bytes (asciiB "DTS_INIT"))))]
  ∧ entryRaw (asciiB "D") (asciiB "T") (asciiB "m") 0 1
      (hashToHex (sha256Bytes (asciiB "DTS_INIT")))
      ((hashToHex (sha256Bytes (payloadB (asciiB "D") (asciiB "T") (asciiB "m")
          0 1 (sha256Bytes (asciiB "DTS_INIT"))))).set 0 48)
    ≠ entryOf (asciiB "D") (asciiB "T") (asciiB "m") 0 1
        (sha256Bytes (asciiB "DTS_INIT"))
        (sha256Bytes (payloadB (asciiB "D") (asciiB "T") (asciiB "m") 0 1
          (sha256Bytes (asciiB "DTS_INIT"))))
  ∧ verifyChain [entryRaw (asciiB "D") (asciiB "T") (asciiB "m") 0 1
      (hashToHex (sha256Bytes (asciiB "DTS_INIT")))
      ((hashToHex (sha256Bytes (payloadB (asciiB "D") (asciiB "T") (asciiB "m")
          0 1 (sha256Bytes (asciiB "DTS_INIT"))))).set 0 48)]
    = Except.ok true := by
  refine ⟨by decide, by decide, by decide⟩

/-- C2 (amended).  On an otherwise-honest export (quote-free device id
and timestamps), `verify_chain` rejects: (a) removal of a middle entry
and (b) a swap of two adjacent entries — both provided the rolling
digest actually changed at that point; (c) a one-character alteration of
any entry's `previous_hash` text; and (d) an alteration of the
`chain_hash` text of a non-last entry to any quote-free text that
parses to a different digest.  The last entry's `chain_hash` is the
exception (see the counterexample). -/
theorem claimC2_tamper_detected
    (dev : List Nat) (I1 : List LogInput) (inp1 inp2 : LogInput)
    (I2 : List LogInput) (j x : Nat) (CH1 CHd h' : List Nat)
    (TAIL1 TAIL2 : List (List Nat))
    (hdev : ∀ c ∈ dev, c ≠ 34)
    (hts1 : ∀ inp ∈ I1, ∀ c ∈ inp.ts, c ≠ 34)
    (ht1 : ∀ c ∈ inp1.ts, c ≠ 34)
    (ht2 : ∀ c ∈ inp2.ts, c ≠ 34)
    (hne : (logOp (chainRun (mkChain dev) I1).1 inp1).1.prevHash
        ≠ (chainRun (mkChain dev) I1).1.prevHash)
    (hj : j < 64) (hx34 : x ≠ 34)
    (hxold : (hashToHex (chainRun (mkChain dev) I1).1.prevHash).getD j 0 ≠ x)
    (hCH1 : ∀ c ∈ CH1, c ≠ 34)
    (hCHd : ∀ c ∈ CHd, c ≠ 34)
    (hparse : hexToHash CHd = Except.ok h')
    (hne2 : h' ≠ (logOp (chainRun (mkChain dev) I1).1 inp1).1.prevHash) :
    verifyChain
        ((chainRun (mkChain dev) (I1 ++ inp1 :: inp2 :: I2)).2.eraseIdx I1.length)
      = Except.ok false
  ∧ verifyChain ((chainRun (mkChain dev) I1).2
        ++ (logOp (logOp (chainRun (mkChain dev) I1).1 inp1).1 inp2).2
        :: (logOp (chainRun (mkChain dev) I1).1 inp1).2
        :: (chainRun (logOp (logOp (chainRun (mkChain dev) I1).1 inp1).1 inp2).1 I2).2)
      = Except.ok false
  ∧ verifyChain ((chainRun (mkChain dev) I1).2
        ++ entryRaw dev inp1.ts inp1.msg inp1.uid inp1.sev
            ((hashToHex (chainRun (mkChain dev) I1).1.prevHash).set j x) CH1
        :: TAIL1)
      = Except.ok false
  ∧ verifyChain ((chainRun (mkChain dev) I1).2
        ++ entryRaw dev inp1.ts inp1.msg inp1.uid inp1.sev
            (hashToHex (chainRun (mkChain dev) I1).1.prevHash) CHd
        :: (logOp (logOp (chainRun (mkChain dev) I1).1 inp1).1 inp2).2
        :: TAIL2)
      = Except.ok false := by
  have hiH1 : isHash (chainRun (mkChain dev) I1).1.prevHash :=
    chainRun_prevHash_isHash I1 (mkChain dev) (mkChain_isHash dev)
  have hdev1 : (chainRun (mkChain dev) I1).1.deviceId = dev := by
    rw [chainRun_deviceId]; rfl
  have hst2 : (logOp (chainRun (mkChain dev) I1).1 inp1).1.prevHash
      = sha256Bytes (payloadB dev inp1.ts inp1.msg inp1.uid inp1.sev
          (chainRun (mkChain dev) I1).1.prevHash) := by
    rw [logOp_spec, hdev1]
  have hiH2 : isHash (logOp (chainRun (mkChain dev) I1).1 inp1).1.prevHash := by
    rw [hst2]; exact sha256_isHash _
  have hdev2 : (logOp (chainRun (mkChain dev) I1).1 inp1).1.deviceId = dev := by
    rw [logOp_spec, hdev1]
  have he2 : (logOp (logOp (chainRun (mkChain dev) I1).1 inp1).1 inp2).2
      = entryRaw dev inp2.ts inp2.msg inp2.uid inp2.sev
          (hashToHex (logOp (chainRun (mkChain dev) I1).1 inp1).1.prevHash)
          (hashToHex (sha256Bytes (payloadB dev inp2.ts inp2.msg inp2.uid inp2.sev
              (logOp (chainRun (mkChain dev) I1).1 inp1).1.prevHash))) := by
    rw [logOp_spec (logOp (chainRun (mkChain dev) I1).1 inp1).1 inp2, hdev2,
      entryOf_raw]
  have hsplit : (chainRun (mkChain dev) (I1 ++ inp1 :: inp2 :: I2)).2
      = (chainRun (mkChain dev) I1).2
        ++ (logOp (chainRun (mkChain dev) I1).1 inp1).2
        :: (logOp (logOp (chainRun (mkChain dev) I1).1 inp1).1 inp2).2
        :: (chainRun (logOp (logOp (chainRun (mkChain dev) I1).1 inp1).1 inp2).1 I2).2 := by
    rw [chainRun_append]
    simp only [chainRun_cons]
  have hPHne : hashToHex (logOp (chainRun (mkChain dev) I1).1 inp1).1.prevHash
      ≠ hashToHex (chainRun (mkChain dev) I1).1.prevHash :=
    hashToHex_ne _ _ hiH2 hiH1 hne
  refine ⟨?_, ?_, ?_, ?_⟩
  · rw [hsplit, ← chainRun_len I1 (mkChain dev), eraseIdx_append, he2]
    exact verify_export_mismatch dev I1 dev inp2.ts inp2.msg inp2.uid inp2.sev
      _ _ _ hdev hts1 hdev ht2 (hashToHex_no_quote _ hiH2.2)
      (hashToHex_no_quote _ (sha256_isHash _).2) hPHne
  · rw [he2]
    exact verify_export_mismatch dev I1 dev inp2.ts inp2.msg inp2.uid inp2.sev
      _ _ _ hdev hts1 hdev ht2 (hashToHex_no_quote _ hiH2.2)
      (hashToHex_no_quote _ (sha256_isHash _).2) hPHne
  · have hlen : j < (hashToHex (chainRun (mkChain dev) I1).1.prevHash).length := by
      rw [hashToHex_length, hiH1.1]; omega
    exact verify_export_mismatch dev I1 dev inp1.ts inp1.msg inp1.uid inp1.sev
      _ _ _ hdev hts1 hdev ht1
      (set_preserves_no_quote _ j x (hashToHex_no_quote _ hiH1.2) hx34) hCH1
      (set_ne_of_getD_ne _ j x hlen hxold)
  · rw [he2]
    exact verify_export_parse_mismatch dev I1 dev inp1.ts inp1.msg inp1.uid
      inp1.sev CHd h' dev inp2.ts inp2.msg inp2.uid inp2.sev _ _ _
      hdev hts1 hdev ht1 hCHd hdev ht2 (hashToHex_no_quote _ hiH2.2)
      (hashToHex_no_quote _ (sha256_isHash _).2) hparse
      (hashToHex_ne _ _ hiH2 (hexToHash_isHash CHd h' hparse) (Ne.symm hne2))

theorem claimC2_witness :
    verifyChain ((chainRun (mkChain (asciiB "D"))
        [⟨asciiB "T", asciiB "m", 0, 1⟩, ⟨asciiB "U", asciiB "n", 2, 3⟩]).2.eraseIdx 0)
      = Except.ok false := by
  have T := claimC2_tamper_detected (asciiB "D") [] ⟨asciiB "T", asciiB "m", 0, 1⟩
    ⟨asciiB "U", asciiB "n", 2, 3⟩ [] 0 48 [48]
    ((List.replicate 32 [48, 48]).flatten) (List.replicate 32 0) [] []
    (by decide) (by simp) (by decide) (by decide) (by decide) (by decide)
    (by decide) (by decide) (by decide) (by decide) (by decide) (by decide)
  exact T.1

end DTS
